import Mathlib

/-!
Shallow embedding of the ACP agent-messaging core: the `Conversation`
lifecycle state machine (src/ACP/src/conversation/conversation.ts) and the
`RequestResponseProtocol` correlation engine
(src/ACP/src/conversation/protocols/request-response.ts).

JavaScript numeric option defaulting (`x || d`) and truthiness (0, "" and
undefined are falsy) are modelled explicitly; timestamps are abstract `Nat`
instants passed in for every `Date.now()` call; `setTimeout` handles are
modelled as fresh natural-number tokens in an explicit armed-timer list,
and promise resolve/reject sinks as fresh tokens settled into a ledger.
-/

namespace ACP

/-- JS `x || d` on an optional number: `undefined` and `0` are falsy. -/
def orD (o : Option Int) (d : Int) : Int :=
  match o with
  | none => d
  | some v => if v = 0 then d else v

/-- JS truthiness of an optional number. -/
def truthyI : Option Int → Bool
  | none => false
  | some v => v != 0

/-- JS truthiness of an optional string (`undefined` and `""` are falsy). -/
def truthyS : Option String → Bool
  | none => false
  | some s => s != ""

/-- JS `s || fresh` on an optional string (used for `options.id || uuidv4()`). -/
def orStr (o : Option String) (fresh : String) : String :=
  match o with
  | none => fresh
  | some s => if s = "" then fresh else s

/-- Insert/overwrite a key in a string-keyed metadata record. -/
def mset (k v : String) : List (String × String) → List (String × String)
  | [] => [(k, v)]
  | (k', v') :: rest => if k' = k then (k, v) :: rest else (k', v') :: mset k v rest

/-- One ACP protocol envelope (src/ACP/src/core/message.ts). Content is
modelled as an opaque string; the protocol only ever stringifies it. -/
structure Message where
  id : String
  sender : String
  receiver : List String
  performative : String
  content : String
  conversationId : Option String
  inReplyTo : Option String
  timestamp : Nat
deriving DecidableEq

/-- Conversation lifecycle states (src/ACP/src/types/index.ts). -/
inductive ConversationState
  | initiated
  | active
  | waiting
  | completed
  | failed
  | timeout
  | cancelled
deriving DecidableEq

/-- The error taxonomy raised synchronously by `Conversation` operations.
Each constructor corresponds to a `throw new Error(...)` site in the source;
the carried string is the source's message text. -/
inductive ConvError
  | invalidArgument (msg : String)
  | invalidTransition (msg : String)
  | capacityExceeded
deriving DecidableEq

/-- The `Conversation` aggregate state (conversation.ts). `timeoutArmed`
models the presence of `_timeoutHandle`; `result` and `error` carry the
opaque terminal payloads. -/
structure Conversation where
  id : String
  participants : List String
  protocol : Option String
  initiator : String
  timeout : Option Int
  maxMessages : Option Int
  created : Nat
  state : ConversationState
  updated : Nat
  messages : List Message
  messageIndex : List (String × Message)
  metadata : List (String × String)
  timeoutArmed : Bool
  result : Option String
  error : Option String
deriving DecidableEq

/-- Constructor options for `Conversation` (interface ConversationOptions). -/
structure ConversationOptions where
  id : Option String
  participants : List String
  protocol : Option String
  initiator : String
  timeout : Option Int
  maxMessages : Option Int
  metadata : Option (List (String × String))
deriving DecidableEq

/-- `new Conversation(options)`: validation, participant normalisation
(initiator appended when missing) and deadline arming, exactly as in the
source constructor. `now` models `Date.now()`, `fresh` models `uuidv4()`. -/
def Conversation.create (o : ConversationOptions) (now : Nat) (fresh : String) :
    Except ConvError Conversation :=
  if o.initiator = "" then
    .error (.invalidArgument "Conversation initiator is required")
  else if o.participants = [] then
    .error (.invalidArgument "Conversation must have at least one participant")
  else if truthyI o.timeout && decide (o.timeout.getD 0 ≤ 0) then
    .error (.invalidArgument "Timeout must be positive")
  else if truthyI o.maxMessages && decide (o.maxMessages.getD 0 ≤ 0) then
    .error (.invalidArgument "Max messages must be positive")
  else
    let ps := if o.participants.contains o.initiator then o.participants
              else o.participants ++ [o.initiator]
    .ok { id := orStr o.id fresh
          participants := ps
          protocol := o.protocol
          initiator := o.initiator
          timeout := o.timeout
          maxMessages := o.maxMessages
          created := now
          state := .initiated
          updated := now
          messages := []
          messageIndex := []
          metadata := o.metadata.getD []
          timeoutArmed := truthyI o.timeout
          result := none
          error := none }

/-- `isActive()` check from the source. -/
def Conversation.isActive (c : Conversation) : Bool :=
  c.state = .active

/-- `isTerminal()` check from the source. -/
def Conversation.isTerminal (c : Conversation) : Bool :=
  c.state = .completed || c.state = .failed || c.state = .cancelled || c.state = .timeout

/-- `transitionTo(newState)`: set state, bump `updated`, clear the deadline
timer. (The `stateChanged` emission carries no state of its own.) -/
def Conversation.transitionTo (c : Conversation) (s : ConversationState) (now : Nat) :
    Conversation :=
  { c with state := s, updated := now, timeoutArmed := false }

/-- `activate()`: legal only from `initiated`. -/
def Conversation.activate (c : Conversation) (now : Nat) : Except ConvError Conversation :=
  if c.state ≠ .initiated then
    .error (.invalidTransition "Cannot activate conversation from state")
  else
    .ok (c.transitionTo .active now)

/-- `setWaiting()`: legal only from `active`. -/
def Conversation.setWaiting (c : Conversation) (now : Nat) : Except ConvError Conversation :=
  if !c.isActive then
    .error (.invalidTransition "Cannot set waiting from state")
  else
    .ok (c.transitionTo .waiting now)

/-- `complete(result?)`: legal from any non-terminal state. -/
def Conversation.complete (c : Conversation) (r : Option String) (now : Nat) :
    Except ConvError Conversation :=
  if c.isTerminal then
    .error (.invalidTransition "Cannot complete conversation from terminal state")
  else
    .ok ({ c with result := r }.transitionTo .completed now)

/-- `fail(error)`: legal from any non-terminal state. -/
def Conversation.fail (c : Conversation) (e : String) (now : Nat) :
    Except ConvError Conversation :=
  if c.isTerminal then
    .error (.invalidTransition "Cannot fail conversation from terminal state")
  else
    .ok ({ c with error := some e }.transitionTo .failed now)

/-- `cancel(reason?)`: legal from any non-terminal state; a truthy reason is
recorded under the `cancellationReason` metadata key. -/
def Conversation.cancel (c : Conversation) (reason : Option String) (now : Nat) :
    Except ConvError Conversation :=
  if c.isTerminal then
    .error (.invalidTransition "Cannot cancel conversation from terminal state")
  else
    let c' := match reason with
      | some r => if r = "" then c else { c with metadata := mset "cancellationReason" r c.metadata }
      | none => c
    .ok (c'.transitionTo .cancelled now)

/-- `handleTimeout()` — the deadline-timer callback: transition to `timeout`
unless already terminal. -/
def Conversation.fireDeadline (c : Conversation) (now : Nat) : Conversation :=
  if !c.isTerminal then c.transitionTo .timeout now else c

/-- The capacity guard of `addMessage`: `this.maxMessages && length >= max`
(a configured maximum of 0 is falsy in JS and disables the check). -/
def Conversation.capFull (c : Conversation) : Bool :=
  match c.maxMessages with
  | none => false
  | some n => if n = 0 then false else decide ((c.messages.length : Int) ≥ n)

/-- The id guard of `addMessage`: a declared conversation id differing from
this conversation's id. -/
def Message.conflictsWith (m : Message) (cid : String) : Bool :=
  match m.conversationId with
  | none => false
  | some s => s != cid

/-- `addMessage(message)`: id check, capacity check, then append + index. -/
def Conversation.addMessage (c : Conversation) (m : Message) (now : Nat) :
    Except ConvError Conversation :=
  if m.conflictsWith c.id then
    .error (.invalidArgument "Message conversation ID does not match")
  else if c.capFull then
    .error .capacityExceeded
  else
    .ok { c with messages := c.messages ++ [m]
                 messageIndex := (m.id, m) :: c.messageIndex
                 updated := now }

/-- `addParticipant(agentId)`: append when absent, otherwise no-op. -/
def Conversation.addParticipant (c : Conversation) (a : String) (now : Nat) : Conversation :=
  if c.participants.contains a then c
  else { c with participants := c.participants ++ [a], updated := now }

/-- `removeParticipant(agentId)`: removing the initiator throws; otherwise
splice out the first occurrence when present. -/
def Conversation.removeParticipant (c : Conversation) (a : String) (now : Nat) :
    Except ConvError Conversation :=
  if a = c.initiator then
    .error (.invalidArgument "Cannot remove conversation initiator")
  else if c.participants.contains a then
    .ok { c with participants := c.participants.erase a, updated := now }
  else
    .ok c

/-- `setMetadata(key, value)`. -/
def Conversation.setMetadata (c : Conversation) (k v : String) (now : Nat) : Conversation :=
  { c with metadata := mset k v c.metadata, updated := now }

/-- The serialized context form (interface ConversationContext). -/
structure ConversationContext where
  id : String
  participants : List String
  protocol : Option String
  state : ConversationState
  metadata : Option (List (String × String))
  created : Nat
  updated : Nat
deriving DecidableEq

/-- `toContext()`: id, participants, state, metadata (always defined),
created/updated, plus protocol when present. -/
def Conversation.toContext (c : Conversation) : ConversationContext :=
  { id := c.id
    participants := c.participants
    protocol := c.protocol
    state := c.state
    metadata := some c.metadata
    created := c.created
    updated := c.updated }

/-- `Conversation.fromContext(context, options?)`: rebuild through the
constructor with the first participant assumed to be the initiator, then
overwrite state and updated timestamp. -/
def Conversation.fromContext (ctx : ConversationContext) (timeout maxMessages : Option Int)
    (now : Nat) (fresh : String) : Except ConvError Conversation :=
  if ctx.participants = [] then
    .error (.invalidArgument "Conversation must have at least one participant")
  else
    match Conversation.create
        { id := some ctx.id
          participants := ctx.participants
          protocol := ctx.protocol
          initiator := ctx.participants.headD ""
          timeout := timeout
          maxMessages := maxMessages
          metadata := ctx.metadata } now fresh with
    | .error e => .error e
    | .ok c => .ok { c with state := ctx.state, updated := ctx.updated }

/-- Serialize then deserialize a conversation (no timeout/maxMessages
options supplied), as in the round-trip law of the spec. -/
def Conversation.roundtrip (c : Conversation) (now : Nat) (fresh : String) :
    Except ConvError Conversation :=
  Conversation.fromContext c.toContext none none now fresh

/-- Sequentially append a list of messages (`addMessage` in a loop),
stopping at the first error. -/
def Conversation.addAll (c : Conversation) (ms : List Message) (now : Nat) :
    Except ConvError Conversation :=
  match ms with
  | [] => .ok c
  | m :: rest =>
    match c.addMessage m now with
    | .error e => .error e
    | .ok c' => c'.addAll rest now

/-- Run a fallible operation; a thrown error leaves the object unchanged
(every `throw` in the source precedes any mutation). -/
def exOr (r : Except ConvError Conversation) (c : Conversation) : Conversation :=
  match r with
  | .ok c' => c'
  | .error _ => c

/-- The public mutating operations on a `Conversation`, plus its own
deadline-timer callback. -/
inductive ConvOp
  | activate (now : Nat)
  | setWaiting (now : Nat)
  | complete (r : Option String) (now : Nat)
  | fail (e : String) (now : Nat)
  | cancel (reason : Option String) (now : Nat)
  | fireDeadline (now : Nat)
  | addMessage (m : Message) (now : Nat)
  | addParticipant (a : String) (now : Nat)
  | removeParticipant (a : String) (now : Nat)
  | setMetadata (k v : String) (now : Nat)
deriving DecidableEq

/-- One mutating call on a conversation (errors leave it unchanged). -/
def convStep (c : Conversation) : ConvOp → Conversation
  | .activate now => exOr (c.activate now) c
  | .setWaiting now => exOr (c.setWaiting now) c
  | .complete r now => exOr (c.complete r now) c
  | .fail e now => exOr (c.fail e now) c
  | .cancel reason now => exOr (c.cancel reason now) c
  | .fireDeadline now => c.fireDeadline now
  | .addMessage m now => exOr (c.addMessage m now) c
  | .addParticipant a now => c.addParticipant a now
  | .removeParticipant a now => exOr (c.removeParticipant a now) c
  | .setMetadata k v now => c.setMetadata k v now

/-- A sequence of mutating calls on a conversation. -/
def convRun (c : Conversation) (ops : List ConvOp) : Conversation :=
  ops.foldl convStep c

/-! ### RequestResponseProtocol
(src/ACP/src/conversation/protocols/request-response.ts)

Timers: every `setTimeout` arms a `Timer` record carrying a fresh handle,
the request id its callback will time out, and its duration; `clearTimeout`
deletes by handle (a no-op for already-fired/cleared handles). Deferred
results: each `initiateRequest` allocates a fresh sink token; resolving or
rejecting appends to the `settled` ledger. -/

/-- Constructor/per-call options (interface RequestResponseOptions). -/
structure RequestResponseOptions where
  timeout : Option Int
  maxRetries : Option Int
  retryDelay : Option Int
deriving DecidableEq

/-- One armed `setTimeout` whose callback is `handleTimeout(target)`. -/
structure Timer where
  handle : Nat
  target : String
  duration : Int
deriving DecidableEq

/-- One entry of the pending-request table (interface PendingRequest).
`conversation` is the conversation reference (held, never mutated);
`timer` is the handle stored in the entry's `timeout` field; `sink` is the
deferred result's resolve/reject pair. -/
structure PendingRequest where
  id : String
  message : Message
  conversation : String
  timer : Option Nat
  sink : Nat
  retries : Int
  maxRetries : Int
  retryDelay : Int
deriving DecidableEq

/-- Errors a deferred request result can be rejected with. -/
inductive ReqError
  | requestTimeout
  | requestFailed (msg : String)
  | cancelled
deriving DecidableEq

/-- Settlement of a deferred result: resolve with a reply or reject. -/
inductive Outcome
  | resolved (m : Message)
  | rejected (e : ReqError)
deriving DecidableEq

/-- Protocol notifications, with the payloads the source passes to `emit`. -/
inductive ProtEvent
  | requestInitiated (m : Message) (conv : String)
  | requestReceived (m : Message) (conv : String)
  | responseReceived (response : Message) (request : Message)
  | requestFailed (failure : Message) (request : Message)
  | requestTimeout (request : Message)
  | requestRetry (request : Message) (retries : Int)
  | requestCancelled (request : Message)
deriving DecidableEq

/-- The protocol engine's state: the pending table (JS `Map`, insertion
order preserved), the armed timers of the event loop, fresh-token counters,
the settlement ledger, the emitted notifications, and the construction-time
defaults. -/
structure ProtocolState where
  pending : List (String × PendingRequest)
  timers : List Timer
  nextHandle : Nat
  nextSink : Nat
  settled : List (Nat × Outcome)
  events : List ProtEvent
  defaultTimeout : Int
  defaultMaxRetries : Int
  defaultRetryDelay : Int
deriving DecidableEq

/-- `Map.get`: first (unique) binding of a key. -/
def plookup (k : String) : List (String × PendingRequest) → Option PendingRequest
  | [] => none
  | p :: rest => if p.1 = k then some p.2 else plookup k rest

/-- `Map.set`: overwrite in place, or append a new binding. -/
def pset (k : String) (v : PendingRequest) :
    List (String × PendingRequest) → List (String × PendingRequest)
  | [] => [(k, v)]
  | p :: rest => if p.1 = k then (k, v) :: rest else p :: pset k v rest

/-- `Map.delete`: remove the binding of a key. -/
def perase (k : String) : List (String × PendingRequest) → List (String × PendingRequest)
  | [] => []
  | p :: rest => if p.1 = k then rest else p :: perase k rest

/-- The keys of the pending table, in insertion order. -/
def pkeys (l : List (String × PendingRequest)) : List String :=
  l.map Prod.fst

/-- `clearTimeout` on an optional stored handle. -/
def clearTimer (h : Option Nat) (ts : List Timer) : List Timer :=
  match h with
  | none => ts
  | some hd => ts.filter (fun t => t.handle ≠ hd)

/-- The armed timers whose callback targets a given request id. -/
def timersFor (s : ProtocolState) (id : String) : List Timer :=
  s.timers.filter (fun t => t.target = id)

/-- `new RequestResponseProtocol(options)`: JS `||` defaulting of the three
configuration values (30000 ms / 3 retries / 1000 ms delay). -/
def RequestResponseProtocol.init (opts : RequestResponseOptions) : ProtocolState :=
  { pending := []
    timers := []
    nextHandle := 0
    nextSink := 0
    settled := []
    events := []
    defaultTimeout := orD opts.timeout 30000
    defaultMaxRetries := orD opts.maxRetries 3
    defaultRetryDelay := orD opts.retryDelay 1000 }

/-- `initiateRequest(message, conversation, options)`: requires performative
"request"; resolves effective timeout/maxRetries/retryDelay by JS `||`
against the instance defaults; registers the entry under the message id
(overwriting any existing binding, without clearing that binding's timer);
arms a deadline timer when the effective timeout is positive; emits
`requestInitiated`. Returns the new deferred result's sink token. -/
def initiateRequest (s : ProtocolState) (m : Message) (conv : String)
    (opts : RequestResponseOptions) : Except String (ProtocolState × Nat) :=
  if m.performative ≠ "request" then
    .error "Message must have performative request"
  else
    let timeout := orD opts.timeout s.defaultTimeout
    let maxRetries := orD opts.maxRetries s.defaultMaxRetries
    let retryDelay := orD opts.retryDelay s.defaultRetryDelay
    let sink := s.nextSink
    if 0 < timeout then
      .ok ({ s with
              pending := pset m.id
                ⟨m.id, m, conv, some s.nextHandle, sink, 0, maxRetries, retryDelay⟩ s.pending
              timers := s.timers ++ [⟨s.nextHandle, m.id, timeout⟩]
              nextHandle := s.nextHandle + 1
              nextSink := s.nextSink + 1
              events := s.events ++ [.requestInitiated m conv] }, sink)
    else
      .ok ({ s with
              pending := pset m.id
                ⟨m.id, m, conv, none, sink, 0, maxRetries, retryDelay⟩ s.pending
              nextSink := s.nextSink + 1
              events := s.events ++ [.requestInitiated m conv] }, sink)

/-- `retryRequest(pendingRequest)`: increment the retry count, clear the
entry's stored timer, wait the entry's retry delay (the atomic step covers
the awaited delay), re-arm a fresh deadline timer of the instance default
duration when that default is positive, and emit `requestRetry`. The
original request message is not handed to any transport. -/
def retryRequest (s : ProtocolState) (e : PendingRequest) : ProtocolState :=
  let ts := clearTimer e.timer s.timers
  if 0 < s.defaultTimeout then
    { s with
        pending := pset e.id
          { e with retries := e.retries + 1, timer := some s.nextHandle } s.pending
        timers := ts ++ [⟨s.nextHandle, e.id, s.defaultTimeout⟩]
        nextHandle := s.nextHandle + 1
        events := s.events ++ [.requestRetry e.message (e.retries + 1)] }
  else
    { s with
        pending := pset e.id { e with retries := e.retries + 1 } s.pending
        timers := ts
        events := s.events ++ [.requestRetry e.message (e.retries + 1)] }

/-- `clearPendingRequest(requestId)`: clear the entry's stored timer and
delete the entry, when it exists. -/
def clearPendingRequest (s : ProtocolState) (id : String) : ProtocolState :=
  match plookup id s.pending with
  | none => s
  | some e =>
    { s with timers := clearTimer e.timer s.timers, pending := perase id s.pending }

/-- `handleTimeout(requestId)` — the deadline-timer callback body: retry
while the count is below the maximum, otherwise remove the entry, reject
its deferred result with RequestTimeout and emit `requestTimeout`. -/
def handleTimeout (s : ProtocolState) (requestId : String) : ProtocolState :=
  match plookup requestId s.pending with
  | none => s
  | some e =>
    if e.retries < e.maxRetries then
      retryRequest s e
    else
      let s1 := clearPendingRequest s requestId
      { s1 with
          settled := s1.settled ++ [(e.sink, .rejected .requestTimeout)]
          events := s1.events ++ [.requestTimeout e.message] }

/-- Expiry of an armed timer: the event loop removes the fired timer, then
its callback `handleTimeout(target)` runs. Handles never armed, already
fired or already cleared fire nothing. -/
def fireTimer (s : ProtocolState) (h : Nat) : ProtocolState :=
  match s.timers.find? (fun t => t.handle = h) with
  | none => s
  | some t =>
    handleTimeout { s with timers := s.timers.filter (fun t' => t'.handle ≠ h) } t.target

/-- `handleResponse(message)`: an inform reply resolves the matching pending
entry and removes it; a falsy or unmatched in-reply-to id is dropped. -/
def handleResponse (s : ProtocolState) (m : Message) : ProtocolState :=
  match m.inReplyTo with
  | none => s
  | some rid =>
    if rid = "" then s
    else
      match plookup rid s.pending with
      | none => s
      | some e =>
        let s1 := clearPendingRequest s rid
        { s1 with
            settled := s1.settled ++ [(e.sink, .resolved m)]
            events := s1.events ++ [.responseReceived m e.message] }

/-- `handleFailure(message)`: a failure reply retries while the budget
remains, otherwise removes the entry and rejects with RequestFailed
(message content, or "Request failed" when falsy); a falsy or unmatched
in-reply-to id is dropped. -/
def handleFailure (s : ProtocolState) (m : Message) : ProtocolState :=
  match m.inReplyTo with
  | none => s
  | some rid =>
    if rid = "" then s
    else
      match plookup rid s.pending with
      | none => s
      | some e =>
        if e.retries < e.maxRetries then
          retryRequest s e
        else
          let s1 := clearPendingRequest s rid
          { s1 with
              settled := s1.settled ++
                [(e.sink, .rejected (.requestFailed (if m.content = "" then "Request failed" else m.content)))]
              events := s1.events ++ [.requestFailed m e.message] }

/-- `handleMessage(message)` routing: inform replies with a truthy
in-reply-to go to `handleResponse`, failure replies to `handleFailure`,
everything else is ignored. -/
def handleMessage (s : ProtocolState) (m : Message) : ProtocolState :=
  if m.performative = "inform" && truthyS m.inReplyTo then
    handleResponse s m
  else if m.performative = "failure" && truthyS m.inReplyTo then
    handleFailure s m
  else
    s

/-- `cancelRequest(requestId)`: when a pending entry exists, clear its
timer, remove it, reject its deferred result with Cancelled, emit
`requestCancelled` and return true; otherwise return false. -/
def cancelRequest (s : ProtocolState) (id : String) : ProtocolState × Bool :=
  match plookup id s.pending with
  | none => (s, false)
  | some e =>
    let s1 := clearPendingRequest s id
    ({ s1 with
        settled := s1.settled ++ [(e.sink, .rejected .cancelled)]
        events := s1.events ++ [.requestCancelled e.message] }, true)

/-- `cancelAllRequests()`: snapshot the pending ids, then cancel each. -/
def cancelAllRequests (s : ProtocolState) : ProtocolState :=
  (s.pending.map Prod.fst).foldl (fun s' id => (cancelRequest s' id).1) s

/-- `getPendingRequestCount()`. -/
def getPendingRequestCount (s : ProtocolState) : Nat :=
  s.pending.length

/-- `getCurrentState()`: derived, `idle` without pending entries else
`waiting`. -/
def getCurrentState (s : ProtocolState) : String :=
  if s.pending.length = 0 then "idle" else "waiting"

/-- The externally triggerable protocol steps: a public `initiateRequest`
call, delivery of an inbound message, expiry of an armed timer, and the
cancellation calls. -/
inductive ProtOp
  | initiate (m : Message) (conv : String) (opts : RequestResponseOptions)
  | deliver (m : Message)
  | fire (h : Nat)
  | cancel (id : String)
  | cancelAll
deriving DecidableEq

/-- One protocol step (a thrown `initiateRequest` validation error leaves
the state unchanged). -/
def protStep (s : ProtocolState) : ProtOp → ProtocolState
  | .initiate m conv opts =>
    match initiateRequest s m conv opts with
    | .ok (s', _) => s'
    | .error _ => s
  | .deliver m => handleMessage s m
  | .fire h => fireTimer s h
  | .cancel id => (cancelRequest s id).1
  | .cancelAll => cancelAllRequests s

/-- A sequence of protocol steps. -/
def protRun (s : ProtocolState) (ops : List ProtOp) : ProtocolState :=
  ops.foldl protStep s

/-- At most one pending entry per request id (the JS Map keys are unique). -/
def oneEntryPerId (s : ProtocolState) : Prop :=
  (pkeys s.pending).Nodup

/-- Every pending entry has exactly one armed deadline timer targeting its
id. -/
def oneTimerPerEntry (s : ProtocolState) : Prop :=
  ∀ p ∈ s.pending, (timersFor s p.1).length = 1

/-- The inductive invariant of the protocol engine: keys are consistent and
unique, every entry's stored timer handle is the unique armed timer
targeting its id, every armed timer targets a pending entry, timer handles
are unique and below the fresh-handle counter, and the instance default
timeout is positive (so retries re-arm). -/
def protInv (s : ProtocolState) : Prop :=
  (∀ p ∈ s.pending, p.2.id = p.1) ∧
  (pkeys s.pending).Nodup ∧
  (∀ p ∈ s.pending, ∃ h d, p.2.timer = some h ∧ timersFor s p.1 = [Timer.mk h p.1 d]) ∧
  (∀ t ∈ s.timers, t.target ∈ pkeys s.pending) ∧
  (s.timers.map Timer.handle).Nodup ∧
  (∀ t ∈ s.timers, t.handle < s.nextHandle) ∧
  0 < s.defaultTimeout

/-- Side condition under which a step preserves the one-timer-per-entry
invariant: an initiateRequest call must use a request id that is not
already pending and a positive effective timeout. -/
def okOpB (s : ProtocolState) : ProtOp → Bool
  | .initiate m _ opts =>
    (plookup m.id s.pending).isNone && decide (0 < orD opts.timeout s.defaultTimeout)
  | _ => true

/-- All steps of the sequence satisfy their side condition in the state
where they execute. -/
def goodOpsB (s : ProtocolState) : List ProtOp → Bool
  | [] => true
  | op :: rest => okOpB s op && goodOpsB (protStep s op) rest

/-! ### Helper lemmas for the pending-table map -/

theorem plookup_pset_self (k : String) (v : PendingRequest)
    (l : List (String × PendingRequest)) : plookup k (pset k v l) = some v := by
  induction l with
  | nil => simp [pset, plookup]
  | cons p rest ih =>
    by_cases hk : p.1 = k
    · simp [pset, plookup, hk]
    · simp [pset, plookup, hk, ih]

theorem plookup_pset_ne (k k' : String) (v : PendingRequest)
    (l : List (String × PendingRequest)) (h : k' ≠ k) :
    plookup k' (pset k v l) = plookup k' l := by
  induction l with
  | nil => simp [pset, plookup, Ne.symm h]
  | cons p rest ih =>
    by_cases hk : p.1 = k
    · simp [pset, plookup, hk, Ne.symm h]
    · simp [pset, plookup, hk, ih]

theorem mem_of_plookup (k : String) (l : List (String × PendingRequest))
    (e : PendingRequest) (h : plookup k l = some e) : (k, e) ∈ l := by
  induction l with
  | nil => cases h
  | cons p rest ih =>
    simp only [plookup] at h
    by_cases hk : p.1 = k
    · rw [if_pos hk] at h
      rw [Option.some.injEq] at h
      subst h
      subst hk
      exact List.mem_cons_self _ _
    · rw [if_neg hk] at h
      exact List.mem_cons_of_mem _ (ih h)

theorem plookup_eq_none_iff (k : String) (l : List (String × PendingRequest)) :
    plookup k l = none ↔ k ∉ pkeys l := by
  induction l with
  | nil => simp [plookup, pkeys]
  | cons p rest ih =>
    simp only [plookup, pkeys, List.map_cons, List.mem_cons]
    by_cases hk : p.1 = k
    · simp [hk]
    · simp only [if_neg hk]
      rw [ih]
      simp only [pkeys]
      constructor
      · intro h hcase
        rcases hcase with hcase | hcase
        · exact hk hcase.symm
        · exact h hcase
      · intro h
        exact fun hm => h (.inr hm)

theorem plookup_isSome_of_mem (k : String) (l : List (String × PendingRequest))
    (h : k ∈ pkeys l) : (plookup k l).isSome := by
  cases hl : plookup k l with
  | none => exact absurd h ((plookup_eq_none_iff k l).mp hl)
  | some e => rfl

theorem pset_eq_append (k : String) (v : PendingRequest)
    (l : List (String × PendingRequest)) (h : plookup k l = none) :
    pset k v l = l ++ [(k, v)] := by
  induction l with
  | nil => rfl
  | cons p rest ih =>
    simp only [plookup] at h
    by_cases hk : p.1 = k
    · rw [if_pos hk] at h
      cases h
    · rw [if_neg hk] at h
      simp [pset, hk, ih h]

theorem pkeys_pset_existing (k : String) (v : PendingRequest)
    (l : List (String × PendingRequest)) (h : (plookup k l).isSome) :
    pkeys (pset k v l) = pkeys l := by
  induction l with
  | nil => simp [plookup] at h
  | cons p rest ih =>
    by_cases hk : p.1 = k
    · simp [pset, hk, pkeys]
    · simp only [plookup, if_neg hk] at h
      simp only [pset, if_neg hk, pkeys, List.map_cons, List.cons.injEq]
      exact ⟨trivial, ih h⟩

theorem mem_pset (k : String) (v : PendingRequest) (l : List (String × PendingRequest))
    (p : String × PendingRequest) (hnd : (pkeys l).Nodup) (h : p ∈ pset k v l) :
    p = (k, v) ∨ (p ∈ l ∧ p.1 ≠ k) := by
  induction l with
  | nil =>
    simp only [pset, List.mem_singleton] at h
    exact .inl h
  | cons q rest ih =>
    simp only [pkeys, List.map_cons, List.nodup_cons] at hnd
    by_cases hk : q.1 = k
    · simp only [pset, if_pos hk] at h
      rcases List.mem_cons.mp h with h | h
      · exact .inl h
      · right
        refine ⟨List.mem_cons_of_mem _ h, ?_⟩
        intro hpk
        apply hnd.1
        have hme : p.1 ∈ rest.map Prod.fst := List.mem_map_of_mem Prod.fst h
        rw [hpk, ← hk] at hme
        exact hme
    · simp only [pset, if_neg hk] at h
      rcases List.mem_cons.mp h with h | h
      · right
        rw [h]
        exact ⟨List.mem_cons_self _ _, hk⟩
      · rcases ih hnd.2 h with h | ⟨h1, h2⟩
        · exact .inl h
        · exact .inr ⟨List.mem_cons_of_mem _ h1, h2⟩

theorem pkeys_perase (k : String) (l : List (String × PendingRequest)) :
    pkeys (perase k l) = (pkeys l).erase k := by
  induction l with
  | nil => rfl
  | cons p rest ih =>
    by_cases hk : p.1 = k
    · simp [perase, hk, pkeys, List.erase_cons]
    · simp only [perase, if_neg hk]
      show p.1 :: pkeys (perase k rest) = (pkeys (p :: rest)).erase k
      rw [show pkeys (p :: rest) = p.1 :: pkeys rest from rfl, List.erase_cons]
      simp [hk, ih]

theorem keysNodup_perase (k : String) (l : List (String × PendingRequest))
    (h : (pkeys l).Nodup) : (pkeys (perase k l)).Nodup := by
  rw [pkeys_perase]
  exact h.erase k

theorem keysNodup_pset (k : String) (v : PendingRequest)
    (l : List (String × PendingRequest)) (h : (pkeys l).Nodup) :
    (pkeys (pset k v l)).Nodup := by
  cases hl : plookup k l with
  | some e =>
    rw [pkeys_pset_existing k v l (by simp [hl])]
    exact h
  | none =>
    rw [pset_eq_append k v l hl]
    have hk : k ∉ pkeys l := (plookup_eq_none_iff k l).mp hl
    simp only [pkeys, List.map_append, List.map_cons, List.map_nil]
    refine List.Nodup.append h (List.nodup_singleton k) ?_
    intro a ha hb
    rw [List.mem_singleton] at hb
    subst hb
    exact hk ha

theorem mem_perase (k : String) (l : List (String × PendingRequest))
    (p : String × PendingRequest) (h : p ∈ perase k l) : p ∈ l := by
  induction l with
  | nil => cases h
  | cons q rest ih =>
    by_cases hk : q.1 = k
    · simp only [perase, if_pos hk] at h
      exact List.mem_cons_of_mem _ h
    · simp only [perase, if_neg hk] at h
      rcases List.mem_cons.mp h with h | h
      · rw [h]
        exact List.mem_cons_self _ _
      · exact List.mem_cons_of_mem _ (ih h)

theorem mem_perase_ne (k : String) (l : List (String × PendingRequest))
    (p : String × PendingRequest) (hnd : (pkeys l).Nodup) (h : p ∈ perase k l) :
    p ∈ l ∧ p.1 ≠ k := by
  refine ⟨mem_perase k l p h, ?_⟩
  intro hpk
  have hkm : p.1 ∈ pkeys (perase k l) := List.mem_map_of_mem Prod.fst h
  rw [hpk, pkeys_perase] at hkm
  exact hnd.not_mem_erase hkm

theorem plookup_perase_self (k : String) (l : List (String × PendingRequest))
    (hnd : (pkeys l).Nodup) : plookup k (perase k l) = none := by
  rw [plookup_eq_none_iff, pkeys_perase]
  exact hnd.not_mem_erase

theorem plookup_perase_ne (k k' : String) (l : List (String × PendingRequest))
    (h : k' ≠ k) : plookup k' (perase k l) = plookup k' l := by
  induction l with
  | nil => rfl
  | cons p rest ih =>
    by_cases hk : p.1 = k
    · simp only [perase, if_pos hk, plookup]
      rw [if_neg (by rw [hk]; exact Ne.symm h)]
    · simp only [perase, if_neg hk, plookup]
      by_cases hk' : p.1 = k'
      · simp [hk']
      · simp [hk', ih]

theorem filter_handle_idem (ts : List Timer) (h : Nat) :
    (ts.filter (fun t => t.handle ≠ h)).filter (fun t => t.handle ≠ h)
      = ts.filter (fun t => t.handle ≠ h) := by
  induction ts with
  | nil => rfl
  | cons t rest ih =>
    by_cases ht : t.handle = h
    · simp [ht, ih]
    · simp [ht, ih]

/-! ### Helper lemmas for the conversation -/

/-- A successfully constructed conversation has an empty log, the requested
initiator and maximum, and the initiator among its participants. -/
theorem create_ok_fields (o : ConversationOptions) (now : Nat) (fresh : String)
    (c : Conversation) (hc : Conversation.create o now fresh = .ok c) :
    c.messages = [] ∧ c.initiator = o.initiator ∧
    c.initiator ∈ c.participants ∧ c.maxMessages = o.maxMessages := by
  simp only [Conversation.create] at hc
  split at hc
  · cases hc
  split at hc
  · cases hc
  split at hc
  · cases hc
  split at hc
  · cases hc
  rw [Except.ok.injEq] at hc
  subst hc
  refine ⟨rfl, rfl, ?_, rfl⟩
  by_cases hmem : o.participants.contains o.initiator
  · simp only [hmem, if_true]
    exact List.mem_of_elem_eq_true hmem
  · simp only [hmem, if_false]
    exact List.mem_append_right _ (List.mem_singleton.mpr rfl)

/-- A nonempty list contains its head. -/
theorem headD_mem (l : List String) (h : l ≠ []) : l.headD "" ∈ l := by
  cases l with
  | nil => cases h rfl
  | cons a t => simp [List.headD]

/-- A terminal state is neither `initiated` nor `active`. -/
theorem terminal_not_initiated_active (c : Conversation) (h : c.isTerminal = true) :
    c.state ≠ .initiated ∧ c.state ≠ .active := by
  simp only [Conversation.isTerminal, Bool.or_eq_true, decide_eq_true_eq] at h
  rcases h with ((h | h) | h) | h <;> simp [h]

/-! ### C1 -/

/-- C1 (amended): once a conversation is in a terminal state, every
lifecycle operation (activate, setWaiting, complete, fail, cancel) fails
with InvalidTransition and produces no new state; `addMessage`, however, is
not blocked by terminality — with a compatible conversation id and free
capacity it still appends to the message log. -/
theorem terminal_blocks_lifecycle_not_append (c : Conversation)
    (h : c.isTerminal = true) (r : Option String) (e : String)
    (reason : Option String) (m : Message) (now : Nat)
    (hm : m.conflictsWith c.id = false) (hcap : c.capFull = false) :
    c.activate now = .error (.invalidTransition "Cannot activate conversation from state") ∧
    c.setWaiting now = .error (.invalidTransition "Cannot set waiting from state") ∧
    c.complete r now = .error (.invalidTransition "Cannot complete conversation from terminal state") ∧
    c.fail e now = .error (.invalidTransition "Cannot fail conversation from terminal state") ∧
    c.cancel reason now = .error (.invalidTransition "Cannot cancel conversation from terminal state") ∧
    c.addMessage m now = .ok { c with messages := c.messages ++ [m]
                                      messageIndex := (m.id, m) :: c.messageIndex
                                      updated := now } := by
  obtain ⟨h1, h2⟩ := terminal_not_initiated_active c h
  refine ⟨?_, ?_, ?_, ?_, ?_, ?_⟩
  · simp [Conversation.activate, h1]
  · simp [Conversation.setWaiting, Conversation.isActive, h2]
  · simp [Conversation.complete, h]
  · simp [Conversation.fail, h]
  · simp [Conversation.cancel, h]
  · simp [Conversation.addMessage, hm, hcap]

/-- C1 witness: the amended statement at a concrete completed conversation. -/
theorem terminal_blocks_lifecycle_not_append_witness :
    (Conversation.mk "c1" ["A"] none "A" none none 0 .completed 0 [] [] [] false none none).activate 5
      = .error (.invalidTransition "Cannot activate conversation from state") ∧
    (Conversation.mk "c1" ["A"] none "A" none none 0 .completed 0 [] [] [] false none none).setWaiting 5
      = .error (.invalidTransition "Cannot set waiting from state") ∧
    (Conversation.mk "c1" ["A"] none "A" none none 0 .completed 0 [] [] [] false none none).complete none 5
      = .error (.invalidTransition "Cannot complete conversation from terminal state") ∧
    (Conversation.mk "c1" ["A"] none "A" none none 0 .completed 0 [] [] [] false none none).fail "x" 5
      = .error (.invalidTransition "Cannot fail conversation from terminal state") ∧
    (Conversation.mk "c1" ["A"] none "A" none none 0 .completed 0 [] [] [] false none none).cancel none 5
      = .error (.invalidTransition "Cannot cancel conversation from terminal state") ∧
    (Conversation.mk "c1" ["A"] none "A" none none 0 .completed 0 [] [] [] false none none).addMessage
        (Message.mk "m1" "A" ["A"] "inform" "" none none 1) 5
      = .ok { Conversation.mk "c1" ["A"] none "A" none none 0 .completed 0 [] [] [] false none none with
              messages := [] ++ [Message.mk "m1" "A" ["A"] "inform" "" none none 1]
              messageIndex := [("m1", Message.mk "m1" "A" ["A"] "inform" "" none none 1)]
              updated := 5 } :=
  terminal_blocks_lifecycle_not_append
    (Conversation.mk "c1" ["A"] none "A" none none 0 .completed 0 [] [] [] false none none)
    (by decide) none "x" none (Message.mk "m1" "A" ["A"] "inform" "" none none 1) 5
    (by decide) (by decide)

/-- C1 counterexample: a conversation that has taken its terminal
transition (`complete`) still accepts `addMessage` — the message log grows
after the terminal state is reached, contrary to the claim that no further
message can be appended. -/
theorem terminal_append_cex :
    (((Conversation.create ⟨some "c1", ["A", "B"], none, "A", none, none, none⟩ 0 "f").bind
        (fun c => c.complete none 1)).bind
      (fun c => c.addMessage (Message.mk "m1" "A" ["B"] "inform" "hello" (some "c1") none 2) 3)).map
      (fun c => (c.state, c.messages.length))
      = .ok (ConversationState.completed, 1) := by rfl

/-! ### C5 -/

/-- While there is room below the configured maximum, a run of compatible
appends succeeds and grows the log by exactly the number of messages. -/
theorem addAll_ok (ms : List Message) (c : Conversation) (N : Int) (now : Nat)
    (hmax : c.maxMessages = some N)
    (hcompat : ∀ m ∈ ms, m.conflictsWith c.id = false)
    (hroom : (c.messages.length : Int) + ms.length ≤ N) :
    ∃ c', c.addAll ms now = .ok c' ∧
      c'.messages.length = c.messages.length + ms.length ∧
      c'.maxMessages = c.maxMessages ∧ c'.id = c.id := by
  induction ms generalizing c now with
  | nil => exact ⟨c, rfl, by simp, rfl, rfl⟩
  | cons m rest ih =>
    simp only [List.length_cons] at hroom
    push_cast at hroom
    have hm : m.conflictsWith c.id = false := hcompat m (List.mem_cons_self m rest)
    have hlt : (c.messages.length : Int) < N := by omega
    have hcap : c.capFull = false := by
      simp only [Conversation.capFull, hmax]
      split
      · rfl
      · simp only [decide_eq_false_iff_not, not_le]
        exact hlt
    have hstep : c.addMessage m now = .ok
        { c with messages := c.messages ++ [m]
                 messageIndex := (m.id, m) :: c.messageIndex
                 updated := now } := by
      simp [Conversation.addMessage, hm, hcap]
    obtain ⟨c', h1, h2, h3, h4⟩ := ih
      { c with messages := c.messages ++ [m]
               messageIndex := (m.id, m) :: c.messageIndex
               updated := now } now
      (by simpa using hmax)
      (fun x hx => by simpa using hcompat x (List.mem_cons_of_mem m hx))
      (by show ((c.messages ++ [m]).length : Int) + (rest.length : Int) ≤ N
          simp only [List.length_append, List.length_singleton]
          push_cast
          omega)
    refine ⟨c', ?_, ?_, by simpa using h3, by simpa using h4⟩
    · simpa [Conversation.addAll, hstep] using h1
    · have h2' : c'.messages.length = (c.messages ++ [m]).length + rest.length := h2
      rw [h2']
      simp only [List.length_append, List.length_singleton, List.length_cons,
        List.length_nil]
      omega

/-- C5: for a conversation constructed with maxMessages = N, N positive,
any N compatible appends all succeed leaving the log at length exactly N,
and every further compatible append fails with CapacityExceeded. -/
theorem maxMessages_exact_capacity (o : ConversationOptions) (now : Nat) (fresh : String)
    (c : Conversation) (N : Int) (hN : 0 < N)
    (hc : Conversation.create o now fresh = .ok c)
    (hmax : c.maxMessages = some N)
    (ms : List Message) (hlen : (ms.length : Int) = N)
    (hcompat : ∀ m ∈ ms, m.conflictsWith c.id = false) (now' : Nat) :
    ∃ c', c.addAll ms now' = .ok c' ∧ (c'.messages.length : Int) = N ∧
      ∀ mx : Message, mx.conflictsWith c'.id = false →
        ∀ n2 : Nat, c'.addMessage mx n2 = .error .capacityExceeded := by
  obtain ⟨hnil, -, -, -⟩ := create_ok_fields o now fresh c hc
  obtain ⟨c', h1, h2, h3, h4⟩ := addAll_ok ms c N now' hmax hcompat
    (by rw [hnil]; simp [hlen])
  have hlen' : (c'.messages.length : Int) = N := by
    rw [h2, hnil]
    simpa using hlen
  refine ⟨c', h1, hlen', ?_⟩
  intro mx hmx n2
  have h3' : c'.maxMessages = some N := h3.trans hmax
  have hfull : c'.capFull = true := by
    simp only [Conversation.capFull, h3']
    split
    · exfalso
      omega
    · simp only [decide_eq_true_eq, ge_iff_le]
      omega
  simp [Conversation.addMessage, hmx, hfull]

/-- C5 witness: maxMessages = 1 — one append succeeds, the second fails. -/
theorem maxMessages_exact_capacity_witness :
    ∃ c', (Conversation.mk "c1" ["A"] none "A" none (some 1) 0 .initiated 0 [] [] [] false
        none none).addAll [Message.mk "m1" "A" ["A"] "inform" "" none none 0] 1 = .ok c' ∧
      (c'.messages.length : Int) = 1 ∧
      ∀ mx : Message, mx.conflictsWith c'.id = false →
        ∀ n2 : Nat, c'.addMessage mx n2 = .error .capacityExceeded :=
  maxMessages_exact_capacity ⟨some "c1", ["A"], none, "A", none, some 1, none⟩ 0 "f"
    (Conversation.mk "c1" ["A"] none "A" none (some 1) 0 .initiated 0 [] [] [] false none none)
    1 (by decide) (by rfl) (by rfl)
    [Message.mk "m1" "A" ["A"] "inform" "" none none 0] (by rfl)
    (by intro m hm; simp at hm; subst hm; rfl) 1

/-! ### C6 -/

/-- C6 counterexample: a validly constructed conversation whose first
participant is the empty string survives `toContext`, but `fromContext`
takes that first participant as initiator and the constructor rejects it,
so the round trip raises instead of reproducing the conversation. -/
theorem roundtrip_cex :
    ((Conversation.create ⟨some "c1", ["", "A"], none, "A", none, none, none⟩ 0 "f").map
      (fun c => c.participants) = .ok ["", "A"]) ∧
    ((Conversation.create ⟨some "c1", ["", "A"], none, "A", none, none, none⟩ 0 "f").bind
      (fun c => c.roundtrip 1 "g"))
      = .error (.invalidArgument "Conversation initiator is required") :=
  ⟨rfl, rfl⟩

/-- C6 (amended): for every conversation whose id and whose first
participant are non-empty strings, serializing with `toContext` and
rebuilding with `fromContext` reproduces identifier, participant list,
state and metadata exactly. -/
theorem roundtrip_preserves (c : Conversation) (now : Nat) (fresh : String)
    (hne : c.participants ≠ [])
    (hhead : c.participants.headD "" ≠ "")
    (hid : c.id ≠ "") :
    ∃ c', c.roundtrip now fresh = .ok c' ∧ c'.id = c.id ∧
      c'.participants = c.participants ∧ c'.state = c.state ∧
      c'.metadata = c.metadata := by
  have hcreate : Conversation.create
      ⟨some c.id, c.participants, c.protocol, c.participants.headD "", none, none,
        some c.metadata⟩ now fresh = .ok
      (Conversation.mk c.id c.participants c.protocol (c.participants.headD "") none none
        now .initiated now [] [] c.metadata false none none) := by
    have hmem2 : c.participants.head?.getD "" ∈ c.participants := by
      rw [← List.headD_eq_head?_getD]
      exact headD_mem _ hne
    simp only [Conversation.create]
    rw [if_neg hhead, if_neg hne]
    simp [truthyI, orStr, hid, hmem2]
  refine ⟨Conversation.mk c.id c.participants c.protocol (c.participants.headD "") none none
      now c.state c.updated [] [] c.metadata false none none, ?_, rfl, rfl, rfl, rfl⟩
  simp only [Conversation.roundtrip, Conversation.fromContext, Conversation.toContext]
  rw [if_neg hne, hcreate]

/-- C6 witness: the amended round trip at a concrete active conversation. -/
theorem roundtrip_preserves_witness :
    ∃ c', (Conversation.mk "c1" ["A", "B"] none "A" none none 0 .active 5 [] []
        [("k", "v")] false none none).roundtrip 9 "g" = .ok c' ∧
      c'.id = "c1" ∧ c'.participants = ["A", "B"] ∧
      c'.state = ConversationState.active ∧ c'.metadata = [("k", "v")] :=
  roundtrip_preserves
    (Conversation.mk "c1" ["A", "B"] none "A" none none 0 .active 5 [] [] [("k", "v")]
      false none none) 9 "g" (by decide) (by decide) (by decide)

/-! ### C7 -/

/-- C7 counterexample: a conversation constructed with a duplicated
participant: one `removeParticipant` call leaves the agent a member, and a
second call removes another occurrence — removal is not an idempotent
membership mutation. -/
theorem remove_not_idempotent_cex :
    (((Conversation.create ⟨some "c1", ["A", "B", "B"], none, "A", none, none, none⟩ 0 "f").bind
        (fun c => c.removeParticipant "B" 1)).map (fun c => c.participants) = .ok ["A", "B"]) ∧
    ((((Conversation.create ⟨some "c1", ["A", "B", "B"], none, "A", none, none, none⟩ 0 "f").bind
        (fun c => c.removeParticipant "B" 1)).bind
      (fun c => c.removeParticipant "B" 2)).map (fun c => c.participants) = .ok ["A"]) :=
  ⟨rfl, rfl⟩

/-- A successful `activate` changes neither initiator nor participants. -/
theorem activate_ok_fields (c : Conversation) (now : Nat) (c' : Conversation)
    (h : c.activate now = .ok c') :
    c'.initiator = c.initiator ∧ c'.participants = c.participants := by
  simp only [Conversation.activate] at h
  split at h
  · cases h
  · rw [Except.ok.injEq] at h
    subst h
    exact ⟨rfl, rfl⟩

/-- A successful `setWaiting` changes neither initiator nor participants. -/
theorem setWaiting_ok_fields (c : Conversation) (now : Nat) (c' : Conversation)
    (h : c.setWaiting now = .ok c') :
    c'.initiator = c.initiator ∧ c'.participants = c.participants := by
  simp only [Conversation.setWaiting] at h
  split at h
  · cases h
  · rw [Except.ok.injEq] at h
    subst h
    exact ⟨rfl, rfl⟩

/-- A successful `complete` changes neither initiator nor participants. -/
theorem complete_ok_fields (c : Conversation) (r : Option String) (now : Nat)
    (c' : Conversation) (h : c.complete r now = .ok c') :
    c'.initiator = c.initiator ∧ c'.participants = c.participants := by
  simp only [Conversation.complete] at h
  split at h
  · cases h
  · rw [Except.ok.injEq] at h
    subst h
    exact ⟨rfl, rfl⟩

/-- A successful `fail` changes neither initiator nor participants. -/
theorem fail_ok_fields (c : Conversation) (e : String) (now : Nat)
    (c' : Conversation) (h : c.fail e now = .ok c') :
    c'.initiator = c.initiator ∧ c'.participants = c.participants := by
  simp only [Conversation.fail] at h
  split at h
  · cases h
  · rw [Except.ok.injEq] at h
    subst h
    exact ⟨rfl, rfl⟩

/-- A successful `cancel` changes neither initiator nor participants. -/
theorem cancel_ok_fields (c : Conversation) (reason : Option String) (now : Nat)
    (c' : Conversation) (h : c.cancel reason now = .ok c') :
    c'.initiator = c.initiator ∧ c'.participants = c.participants := by
  simp only [Conversation.cancel] at h
  split at h
  · cases h
  · rw [Except.ok.injEq] at h
    subst h
    cases reason with
    | none => exact ⟨rfl, rfl⟩
    | some r =>
      by_cases hr : r = "" <;> simp [hr, Conversation.transitionTo]

/-- A successful `addMessage` changes neither initiator nor participants. -/
theorem addMessage_ok_fields (c : Conversation) (m : Message) (now : Nat)
    (c' : Conversation) (h : c.addMessage m now = .ok c') :
    c'.initiator = c.initiator ∧ c'.participants = c.participants := by
  simp only [Conversation.addMessage] at h
  split at h
  · cases h
  split at h
  · cases h
  rw [Except.ok.injEq] at h
  subst h
  exact ⟨rfl, rfl⟩

/-- A successful `removeParticipant` keeps the initiator and either leaves
the participants unchanged or erases the (non-initiator) agent. -/
theorem removeParticipant_ok_fields (c : Conversation) (a : String) (now : Nat)
    (c' : Conversation) (h : c.removeParticipant a now = .ok c') :
    c'.initiator = c.initiator ∧
    (c'.participants = c.participants ∨
      (a ≠ c.initiator ∧ c'.participants = c.participants.erase a)) := by
  simp only [Conversation.removeParticipant] at h
  split at h
  · cases h
  split at h
  · rw [Except.ok.injEq] at h
    subst h
    rename_i hinit _
    exact ⟨rfl, .inr ⟨hinit, rfl⟩⟩
  · rw [Except.ok.injEq] at h
    subst h
    exact ⟨rfl, .inl rfl⟩

/-- Every conversation operation leaves the initiator field unchanged. -/
theorem convStep_initiator (c : Conversation) (op : ConvOp) :
    (convStep c op).initiator = c.initiator := by
  cases op with
  | activate now =>
    simp only [convStep]
    cases hr : c.activate now with
    | error e => rfl
    | ok c' => exact (activate_ok_fields c now c' hr).1
  | setWaiting now =>
    simp only [convStep]
    cases hr : c.setWaiting now with
    | error e => rfl
    | ok c' => exact (setWaiting_ok_fields c now c' hr).1
  | complete r now =>
    simp only [convStep]
    cases hr : c.complete r now with
    | error e => rfl
    | ok c' => exact (complete_ok_fields c r now c' hr).1
  | fail e now =>
    simp only [convStep]
    cases hr : c.fail e now with
    | error x => rfl
    | ok c' => exact (fail_ok_fields c e now c' hr).1
  | cancel reason now =>
    simp only [convStep]
    cases hr : c.cancel reason now with
    | error e => rfl
    | ok c' => exact (cancel_ok_fields c reason now c' hr).1
  | fireDeadline now =>
    simp only [convStep, Conversation.fireDeadline]
    split <;> rfl
  | addMessage m now =>
    simp only [convStep]
    cases hr : c.addMessage m now with
    | error e => rfl
    | ok c' => exact (addMessage_ok_fields c m now c' hr).1
  | addParticipant a now =>
    simp only [convStep, Conversation.addParticipant]
    split <;> rfl
  | removeParticipant a now =>
    simp only [convStep]
    cases hr : c.removeParticipant a now with
    | error e => rfl
    | ok c' => exact (removeParticipant_ok_fields c a now c' hr).1
  | setMetadata k v now => rfl

/-- Every conversation operation preserves the initiator's membership in
the participant list. -/
theorem convStep_mem (c : Conversation) (op : ConvOp)
    (h : c.initiator ∈ c.participants) :
    c.initiator ∈ (convStep c op).participants := by
  cases op with
  | activate now =>
    simp only [convStep]
    cases hr : c.activate now with
    | error e => exact h
    | ok c' =>
      show c.initiator ∈ c'.participants
      rw [(activate_ok_fields c now c' hr).2]
      exact h
  | setWaiting now =>
    simp only [convStep]
    cases hr : c.setWaiting now with
    | error e => exact h
    | ok c' =>
      show c.initiator ∈ c'.participants
      rw [(setWaiting_ok_fields c now c' hr).2]
      exact h
  | complete r now =>
    simp only [convStep]
    cases hr : c.complete r now with
    | error e => exact h
    | ok c' =>
      show c.initiator ∈ c'.participants
      rw [(complete_ok_fields c r now c' hr).2]
      exact h
  | fail e now =>
    simp only [convStep]
    cases hr : c.fail e now with
    | error x => exact h
    | ok c' =>
      show c.initiator ∈ c'.participants
      rw [(fail_ok_fields c e now c' hr).2]
      exact h
  | cancel reason now =>
    simp only [convStep]
    cases hr : c.cancel reason now with
    | error e => exact h
    | ok c' =>
      show c.initiator ∈ c'.participants
      rw [(cancel_ok_fields c reason now c' hr).2]
      exact h
  | fireDeadline now =>
    simp only [convStep, Conversation.fireDeadline]
    split
    · exact h
    · exact h
  | addMessage m now =>
    simp only [convStep]
    cases hr : c.addMessage m now with
    | error e => exact h
    | ok c' =>
      show c.initiator ∈ c'.participants
      rw [(addMessage_ok_fields c m now c' hr).2]
      exact h
  | addParticipant a now =>
    simp only [convStep, Conversation.addParticipant]
    split
    · exact h
    · exact List.mem_append_left _ h
  | removeParticipant a now =>
    simp only [convStep]
    cases hr : c.removeParticipant a now with
    | error e => exact h
    | ok c' =>
      show c.initiator ∈ c'.participants
      obtain ⟨-, hp⟩ := removeParticipant_ok_fields c a now c' hr
      rcases hp with hp | ⟨hne, hp⟩
      · rw [hp]
        exact h
      · rw [hp]
        exact (List.mem_erase_of_ne (fun he => hne he.symm)).mpr h
  | setMetadata k v now => exact h

/-- A whole run of conversation operations preserves the invariant that the
initiator is a participant. -/
theorem convRun_mem (c : Conversation) (ops : List ConvOp)
    (h : c.initiator ∈ c.participants) :
    (convRun c ops).initiator ∈ (convRun c ops).participants := by
  induction ops generalizing c with
  | nil => exact h
  | cons op rest ih =>
    simp only [convRun, List.foldl_cons]
    have h' : (convStep c op).initiator ∈ (convStep c op).participants := by
      rw [convStep_initiator]
      exact convStep_mem c op h
    exact ih _ h'

/-- C7 (amended): the initiator of a validly constructed conversation is
always a participant, and stays one under every operation sequence, so the
participant list is never empty; removing the initiator fails with
InvalidArgument; adding a participant is idempotent; removing another
participant is idempotent provided that participant does not occur more
than once in the list (construction may install duplicates, and removal
splices out only the first occurrence). -/
theorem initiator_membership_invariant (o : ConversationOptions) (now : Nat) (fresh : String)
    (c : Conversation) (hc : Conversation.create o now fresh = .ok c) :
    c.initiator ∈ c.participants ∧
    (∀ ops : List ConvOp, (convRun c ops).initiator ∈ (convRun c ops).participants ∧
      (convRun c ops).participants ≠ []) ∧
    (∀ d : Conversation, ∀ n : Nat, d.removeParticipant d.initiator n
      = .error (.invalidArgument "Cannot remove conversation initiator")) ∧
    (∀ d : Conversation, ∀ a : String, ∀ n₁ n₂ : Nat,
      (d.addParticipant a n₁).addParticipant a n₂ = d.addParticipant a n₁) ∧
    (∀ d : Conversation, ∀ a : String, ∀ n₁ n₂ : Nat, a ≠ d.initiator →
      d.participants.count a ≤ 1 →
      (d.removeParticipant a n₁).bind (fun d' => d'.removeParticipant a n₂)
        = d.removeParticipant a n₁) := by
  obtain ⟨-, -, hmem, -⟩ := create_ok_fields o now fresh c hc
  refine ⟨hmem, ?_, ?_, ?_, ?_⟩
  · intro ops
    have h := convRun_mem c ops hmem
    exact ⟨h, List.ne_nil_of_mem h⟩
  · intro d n
    simp [Conversation.removeParticipant]
  · intro d a n₁ n₂
    by_cases hm : a ∈ d.participants
    · simp [Conversation.addParticipant, hm]
    · simp [Conversation.addParticipant, hm]
  · intro d a n₁ n₂ ha hcount
    by_cases hm : a ∈ d.participants
    · have hgone : a ∉ d.participants.erase a := by
        rw [← List.count_eq_zero, List.count_erase_self]
        have := List.count_pos_iff.mpr hm
        omega
      simp [Conversation.removeParticipant, ha, hm, hgone, Except.bind]
    · simp [Conversation.removeParticipant, ha, hm, Except.bind]

/-- C7 witness: the amended statement at a concrete two-party conversation. -/
theorem initiator_membership_invariant_witness :
    (Conversation.mk "c1" ["A", "B"] none "A" none none 0 .initiated 0 [] [] [] false
        none none).initiator ∈
      (Conversation.mk "c1" ["A", "B"] none "A" none none 0 .initiated 0 [] [] [] false
        none none).participants ∧
    (∀ ops : List ConvOp,
      (convRun (Conversation.mk "c1" ["A", "B"] none "A" none none 0 .initiated 0 [] [] []
          false none none) ops).initiator ∈
        (convRun (Conversation.mk "c1" ["A", "B"] none "A" none none 0 .initiated 0 [] [] []
          false none none) ops).participants ∧
      (convRun (Conversation.mk "c1" ["A", "B"] none "A" none none 0 .initiated 0 [] [] []
          false none none) ops).participants ≠ []) ∧
    (∀ d : Conversation, ∀ n : Nat, d.removeParticipant d.initiator n
      = .error (.invalidArgument "Cannot remove conversation initiator")) ∧
    (∀ d : Conversation, ∀ a : String, ∀ n₁ n₂ : Nat,
      (d.addParticipant a n₁).addParticipant a n₂ = d.addParticipant a n₁) ∧
    (∀ d : Conversation, ∀ a : String, ∀ n₁ n₂ : Nat, a ≠ d.initiator →
      d.participants.count a ≤ 1 →
      (d.removeParticipant a n₁).bind (fun d' => d'.removeParticipant a n₂)
        = d.removeParticipant a n₁) :=
  initiator_membership_invariant ⟨some "c1", ["A", "B"], none, "A", none, none, none⟩ 0 "f"
    (Conversation.mk "c1" ["A", "B"] none "A" none none 0 .initiated 0 [] [] [] false
      none none) (by rfl)

/-! ### C8 -/

/-- C8: an inbound message with performative "inform" or "failure" whose
in-reply-to id matches no pending entry is dropped silently: handling it
raises nothing, settles nothing, emits nothing and leaves the whole
protocol state (pending table included) unchanged. -/
theorem unmatched_reply_dropped (s : ProtocolState) (m : Message)
    (_hp : m.performative = "inform" ∨ m.performative = "failure")
    (hno : ∀ r, m.inReplyTo = some r → plookup r s.pending = none) :
    handleMessage s m = s := by
  have hresp : handleResponse s m = s := by
    simp only [handleResponse]
    cases hir : m.inReplyTo with
    | none => rfl
    | some r =>
      by_cases hr : r = ""
      · simp [hr]
      · simp [hr, hno r hir]
  have hfail : handleFailure s m = s := by
    simp only [handleFailure]
    cases hir : m.inReplyTo with
    | none => rfl
    | some r =>
      by_cases hr : r = ""
      · simp [hr]
      · simp [hr, hno r hir]
  by_cases hinf : m.performative = "inform"
  · by_cases ht : truthyS m.inReplyTo = true
    · simp [handleMessage, hinf, ht, hresp]
    · rw [Bool.not_eq_true] at ht
      simp [handleMessage, hinf, ht]
  · by_cases hfl : m.performative = "failure"
    · by_cases ht : truthyS m.inReplyTo = true
      · simp [handleMessage, hinf, hfl, ht, hfail]
      · rw [Bool.not_eq_true] at ht
        simp [handleMessage, hinf, hfl, ht]
    · simp [handleMessage, hinf, hfl]

/-- C8 witness: an inform reply correlated to an id that was never pending
leaves the freshly constructed protocol untouched. -/
theorem unmatched_reply_dropped_witness :
    handleMessage (RequestResponseProtocol.init ⟨none, none, none⟩)
      (Message.mk "m9" "b" ["a"] "inform" "" none (some "zzz") 7)
      = RequestResponseProtocol.init ⟨none, none, none⟩ :=
  unmatched_reply_dropped _ _ (.inl rfl)
    (by intro r hr
        injection hr with h
        subst h
        rfl)

/-! ### C9 -/

/-- C9: cancelRequest(id) returns true exactly when a pending entry exists;
in that case it clears the entry's timer, removes the entry, rejects the
deferred result with Cancelled and emits a notification; with no pending
entry it returns false and changes nothing, so a second cancellation of the
same id always returns false. -/
theorem cancelRequest_spec (s : ProtocolState) (id : String)
    (hnd : (pkeys s.pending).Nodup) :
    ((cancelRequest s id).2 = true ↔ (plookup id s.pending).isSome) ∧
    (∀ e, plookup id s.pending = some e →
      cancelRequest s id =
        ({ s with pending := perase id s.pending
                  timers := clearTimer e.timer s.timers
                  settled := s.settled ++ [(e.sink, .rejected .cancelled)]
                  events := s.events ++ [.requestCancelled e.message] }, true)) ∧
    (plookup id s.pending = none → cancelRequest s id = (s, false)) ∧
    ((cancelRequest (cancelRequest s id).1 id).2 = false) := by
  refine ⟨?_, ?_, ?_, ?_⟩
  · cases hl : plookup id s.pending with
    | none => simp [cancelRequest, hl]
    | some e => simp [cancelRequest, hl, clearPendingRequest]
  · intro e hl
    simp [cancelRequest, hl, clearPendingRequest]
  · intro hl
    simp [cancelRequest, hl]
  · cases hl : plookup id s.pending with
    | none => simp [cancelRequest, hl]
    | some e =>
      have h1 : (cancelRequest s id).1.pending = perase id s.pending := by
        simp [cancelRequest, hl, clearPendingRequest]
      have h2 : plookup id (cancelRequest s id).1.pending = none := by
        rw [h1]
        exact plookup_perase_self id s.pending hnd
      generalize hs1 : (cancelRequest s id).1 = s1 at h2
      simp [cancelRequest, h2]

/-- C9 witness: the statement at a one-entry pending table. -/
theorem cancelRequest_spec_witness :
    ((cancelRequest (ProtocolState.mk
        [("r1", PendingRequest.mk "r1" (Message.mk "r1" "a" ["b"] "request" "" none none 0)
          "c" (some 0) 0 0 3 1000)]
        [Timer.mk 0 "r1" 30000] 1 1 [] [] 30000 3 1000) "r1").2 = true ↔
      (plookup "r1" (ProtocolState.mk
        [("r1", PendingRequest.mk "r1" (Message.mk "r1" "a" ["b"] "request" "" none none 0)
          "c" (some 0) 0 0 3 1000)]
        [Timer.mk 0 "r1" 30000] 1 1 [] [] 30000 3 1000).pending).isSome) ∧
    (∀ e, plookup "r1" (ProtocolState.mk
        [("r1", PendingRequest.mk "r1" (Message.mk "r1" "a" ["b"] "request" "" none none 0)
          "c" (some 0) 0 0 3 1000)]
        [Timer.mk 0 "r1" 30000] 1 1 [] [] 30000 3 1000).pending = some e →
      cancelRequest (ProtocolState.mk
        [("r1", PendingRequest.mk "r1" (Message.mk "r1" "a" ["b"] "request" "" none none 0)
          "c" (some 0) 0 0 3 1000)]
        [Timer.mk 0 "r1" 30000] 1 1 [] [] 30000 3 1000) "r1" =
        ({ ProtocolState.mk
            [("r1", PendingRequest.mk "r1" (Message.mk "r1" "a" ["b"] "request" "" none none 0)
              "c" (some 0) 0 0 3 1000)]
            [Timer.mk 0 "r1" 30000] 1 1 [] [] 30000 3 1000 with
            pending := perase "r1" (ProtocolState.mk
              [("r1", PendingRequest.mk "r1" (Message.mk "r1" "a" ["b"] "request" "" none none 0)
                "c" (some 0) 0 0 3 1000)]
              [Timer.mk 0 "r1" 30000] 1 1 [] [] 30000 3 1000).pending
            timers := clearTimer e.timer (ProtocolState.mk
              [("r1", PendingRequest.mk "r1" (Message.mk "r1" "a" ["b"] "request" "" none none 0)
                "c" (some 0) 0 0 3 1000)]
              [Timer.mk 0 "r1" 30000] 1 1 [] [] 30000 3 1000).timers
            settled := [] ++ [(e.sink, .rejected .cancelled)]
            events := [] ++ [.requestCancelled e.message] }, true)) ∧
    (plookup "r1" (ProtocolState.mk
        [("r1", PendingRequest.mk "r1" (Message.mk "r1" "a" ["b"] "request" "" none none 0)
          "c" (some 0) 0 0 3 1000)]
        [Timer.mk 0 "r1" 30000] 1 1 [] [] 30000 3 1000).pending = none →
      cancelRequest (ProtocolState.mk
        [("r1", PendingRequest.mk "r1" (Message.mk "r1" "a" ["b"] "request" "" none none 0)
          "c" (some 0) 0 0 3 1000)]
        [Timer.mk 0 "r1" 30000] 1 1 [] [] 30000 3 1000) "r1" =
        (ProtocolState.mk
          [("r1", PendingRequest.mk "r1" (Message.mk "r1" "a" ["b"] "request" "" none none 0)
            "c" (some 0) 0 0 3 1000)]
          [Timer.mk 0 "r1" 30000] 1 1 [] [] 30000 3 1000, false)) ∧
    ((cancelRequest (cancelRequest (ProtocolState.mk
        [("r1", PendingRequest.mk "r1" (Message.mk "r1" "a" ["b"] "request" "" none none 0)
          "c" (some 0) 0 0 3 1000)]
        [Timer.mk 0 "r1" 30000] 1 1 [] [] 30000 3 1000) "r1").1 "r1").2 = false) :=
  cancelRequest_spec (ProtocolState.mk
    [("r1", PendingRequest.mk "r1" (Message.mk "r1" "a" ["b"] "request" "" none none 0)
      "c" (some 0) 0 0 3 1000)]
    [Timer.mk 0 "r1" 30000] 1 1 [] [] 30000 3 1000) "r1" (by decide)

/-! ### C10 -/

/-- C10: the instance default timeout is 30000 ms when not overridden at
construction; a per-call positive custom timeout arms the first deadline at
that custom duration; every retry re-arms at the instance default duration
regardless of the entry's origin; and a per-call timeout of 0 is falsy, so
even then the deadline (initial and retried) uses the instance default. -/
theorem retry_rearm_uses_instance_default (mr rd : Option Int) :
    (RequestResponseProtocol.init ⟨none, mr, rd⟩).defaultTimeout = 30000 ∧
    (∀ s : ProtocolState, ∀ m : Message, ∀ conv : String, ∀ t : Int,
      ∀ mr' rd' : Option Int, 0 < t → m.performative = "request" →
      (initiateRequest s m conv ⟨some t, mr', rd'⟩).map (fun pr => pr.1.timers)
        = .ok (s.timers ++ [Timer.mk s.nextHandle m.id t])) ∧
    (∀ s : ProtocolState, ∀ e : PendingRequest, 0 < s.defaultTimeout →
      (retryRequest s e).timers
        = clearTimer e.timer s.timers ++ [Timer.mk s.nextHandle e.id s.defaultTimeout]) ∧
    (∀ s : ProtocolState, ∀ m : Message, ∀ conv : String, ∀ mr' rd' : Option Int,
      0 < s.defaultTimeout → m.performative = "request" →
      (initiateRequest s m conv ⟨some 0, mr', rd'⟩).map (fun pr => pr.1.timers)
        = .ok (s.timers ++ [Timer.mk s.nextHandle m.id s.defaultTimeout])) := by
  refine ⟨rfl, ?_, ?_, ?_⟩
  · intro s m conv t mr' rd' ht hm
    have hne0 : t ≠ 0 := ne_of_gt ht
    simp [initiateRequest, hm, orD, hne0, ht, Except.map]
  · intro s e hdt
    simp [retryRequest, hdt]
  · intro s m conv mr' rd' hdt hm
    simp [initiateRequest, hm, orD, hdt, Except.map]

/-- C10 witness: concrete instances of all four parts. -/
theorem retry_rearm_uses_instance_default_witness :
    (RequestResponseProtocol.init ⟨none, none, none⟩).defaultTimeout = 30000 ∧
    ((initiateRequest (RequestResponseProtocol.init ⟨none, none, none⟩)
        (Message.mk "r1" "a" ["b"] "request" "" none none 0) "c"
        ⟨some 50, none, none⟩).map (fun pr => pr.1.timers)
      = .ok ((RequestResponseProtocol.init ⟨none, none, none⟩).timers ++
          [Timer.mk (RequestResponseProtocol.init ⟨none, none, none⟩).nextHandle "r1" 50])) ∧
    ((retryRequest (ProtocolState.mk
        [("r1", PendingRequest.mk "r1" (Message.mk "r1" "a" ["b"] "request" "" none none 0)
          "c" (some 0) 0 0 3 1000)]
        [Timer.mk 0 "r1" 50] 1 1 [] [] 30000 3 1000)
        (PendingRequest.mk "r1" (Message.mk "r1" "a" ["b"] "request" "" none none 0)
          "c" (some 0) 0 0 3 1000)).timers
      = clearTimer (some 0) [Timer.mk 0 "r1" 50] ++ [Timer.mk 1 "r1" 30000]) ∧
    ((initiateRequest (RequestResponseProtocol.init ⟨none, none, none⟩)
        (Message.mk "r1" "a" ["b"] "request" "" none none 0) "c"
        ⟨some 0, none, none⟩).map (fun pr => pr.1.timers)
      = .ok ((RequestResponseProtocol.init ⟨none, none, none⟩).timers ++
          [Timer.mk (RequestResponseProtocol.init ⟨none, none, none⟩).nextHandle "r1" 30000])) := by
  obtain ⟨h1, h2, h3, h4⟩ := retry_rearm_uses_instance_default none none
  exact ⟨h1,
    h2 (RequestResponseProtocol.init ⟨none, none, none⟩)
      (Message.mk "r1" "a" ["b"] "request" "" none none 0) "c" 50 none none (by decide) rfl,
    h3 (ProtocolState.mk
        [("r1", PendingRequest.mk "r1" (Message.mk "r1" "a" ["b"] "request" "" none none 0)
          "c" (some 0) 0 0 3 1000)]
        [Timer.mk 0 "r1" 50] 1 1 [] [] 30000 3 1000)
      (PendingRequest.mk "r1" (Message.mk "r1" "a" ["b"] "request" "" none none 0)
        "c" (some 0) 0 0 3 1000) (by decide),
    h4 (RequestResponseProtocol.init ⟨none, none, none⟩)
      (Message.mk "r1" "a" ["b"] "request" "" none none 0) "c" none none (by decide) rfl⟩

/-! ### C2 -/

/-- C2: a failure reply correlated to a pending request below its retry
budget (and likewise its deadline expiry, which runs the identical retry
step) increments the retry count by exactly one, clears the stored timer,
re-arms a fresh deadline timer of the instance default duration, and emits
exactly a retry notification; nothing is settled, nothing is resent, the
entry stays in the table under the same id, and its message, conversation
and completion sink are unchanged. -/
theorem retry_below_max_frame (s : ProtocolState) (id : String) (e : PendingRequest)
    (fm : Message)
    (hlook : plookup id s.pending = some e)
    (hid : e.id = id)
    (hretry : e.retries < e.maxRetries)
    (hdt : 0 < s.defaultTimeout)
    (_hperf : fm.performative = "failure")
    (hreply : fm.inReplyTo = some id)
    (hne : id ≠ "") :
    (handleFailure s fm =
      { s with
          pending := pset id { e with retries := e.retries + 1, timer := some s.nextHandle }
            s.pending
          timers := clearTimer e.timer s.timers ++ [Timer.mk s.nextHandle id s.defaultTimeout]
          nextHandle := s.nextHandle + 1
          events := s.events ++ [.requestRetry e.message (e.retries + 1)] }) ∧
    ((handleFailure s fm).settled = s.settled) ∧
    (plookup id (handleFailure s fm).pending
      = some { e with retries := e.retries + 1, timer := some s.nextHandle }) ∧
    (pkeys (handleFailure s fm).pending = pkeys s.pending) ∧
    (∀ h : Nat, ∀ d : Int, e.timer = some h →
      s.timers.find? (fun t => t.handle = h) = some (Timer.mk h id d) →
      fireTimer s h = handleFailure s fm) := by
  have hmain : handleFailure s fm =
      { s with
          pending := pset id { e with retries := e.retries + 1, timer := some s.nextHandle }
            s.pending
          timers := clearTimer e.timer s.timers ++ [Timer.mk s.nextHandle id s.defaultTimeout]
          nextHandle := s.nextHandle + 1
          events := s.events ++ [.requestRetry e.message (e.retries + 1)] } := by
    simp only [handleFailure, hreply]
    rw [if_neg hne]
    simp only [hlook]
    rw [if_pos hretry]
    simp only [retryRequest, hid]
    rw [if_pos hdt]
  refine ⟨hmain, by rw [hmain], ?_, ?_, ?_⟩
  · rw [hmain]
    exact plookup_pset_self id _ s.pending
  · rw [hmain]
    exact pkeys_pset_existing id _ s.pending (by simp [hlook])
  · intro h d htimer hfind
    rw [hmain]
    simp only [fireTimer, hfind]
    simp only [handleTimeout, hlook]
    rw [if_pos hretry]
    simp only [retryRequest, hid, htimer, clearTimer]
    rw [if_pos hdt]
    rw [filter_handle_idem]

/-- C2 witness: the retry frame at a concrete one-entry protocol state. -/
theorem retry_below_max_frame_witness :
    handleFailure (ProtocolState.mk
        [("r1", PendingRequest.mk "r1" (Message.mk "r1" "a" ["b"] "request" "" none none 0)
          "c" (some 0) 0 0 3 1000)]
        [Timer.mk 0 "r1" 50] 1 1 [] [] 30000 3 1000)
      (Message.mk "f1" "b" ["a"] "failure" "" none (some "r1") 9) =
      { ProtocolState.mk
          [("r1", PendingRequest.mk "r1" (Message.mk "r1" "a" ["b"] "request" "" none none 0)
            "c" (some 0) 0 0 3 1000)]
          [Timer.mk 0 "r1" 50] 1 1 [] [] 30000 3 1000 with
          pending := pset "r1"
            { PendingRequest.mk "r1" (Message.mk "r1" "a" ["b"] "request" "" none none 0)
                "c" (some 0) 0 0 3 1000 with
              retries := (PendingRequest.mk "r1"
                (Message.mk "r1" "a" ["b"] "request" "" none none 0)
                "c" (some 0) 0 0 3 1000).retries + 1
              timer := some 1 }
            [("r1", PendingRequest.mk "r1" (Message.mk "r1" "a" ["b"] "request" "" none none 0)
              "c" (some 0) 0 0 3 1000)]
          timers := clearTimer (some 0) [Timer.mk 0 "r1" 50] ++ [Timer.mk 1 "r1" 30000]
          nextHandle := 2
          events := [] ++ [.requestRetry (Message.mk "r1" "a" ["b"] "request" "" none none 0)
            ((PendingRequest.mk "r1" (Message.mk "r1" "a" ["b"] "request" "" none none 0)
              "c" (some 0) 0 0 3 1000).retries + 1)] } :=
  (retry_below_max_frame (ProtocolState.mk
      [("r1", PendingRequest.mk "r1" (Message.mk "r1" "a" ["b"] "request" "" none none 0)
        "c" (some 0) 0 0 3 1000)]
      [Timer.mk 0 "r1" 50] 1 1 [] [] 30000 3 1000) "r1"
    (PendingRequest.mk "r1" (Message.mk "r1" "a" ["b"] "request" "" none none 0)
      "c" (some 0) 0 0 3 1000)
    (Message.mk "f1" "b" ["a"] "failure" "" none (some "r1") 9)
    rfl rfl (by decide) (by decide) rfl rfl (by decide)).1

/-! ### C3 -/

/-- C3 (amended): once the retry count has reached the maximum, a deadline
expiry rejects the deferred result with RequestTimeout and a correlated
failure reply rejects it with RequestFailed; in both cases the entry is
removed and the corresponding notification is emitted. However a request
initiated with options maxRetries = 0 does not fail at its first deadline:
0 is falsy under the JS default (`options.maxRetries || default`), so the
entry's effective retry budget is the instance default (3 unless
overridden) and the first expiry performs a retry instead. -/
theorem exhausted_budget_rejects (s : ProtocolState) (id : String) (e : PendingRequest)
    (hlook : plookup id s.pending = some e)
    (hmax : ¬ e.retries < e.maxRetries) :
    (handleTimeout s id =
      { s with timers := clearTimer e.timer s.timers
               pending := perase id s.pending
               settled := s.settled ++ [(e.sink, .rejected .requestTimeout)]
               events := s.events ++ [.requestTimeout e.message] }) ∧
    ((pkeys s.pending).Nodup → plookup id (handleTimeout s id).pending = none) ∧
    (∀ h : Nat, ∀ d : Int, e.timer = some h →
      s.timers.find? (fun t => t.handle = h) = some (Timer.mk h id d) →
      fireTimer s h = handleTimeout s id) ∧
    (∀ fm : Message, fm.performative = "failure" → fm.inReplyTo = some id → id ≠ "" →
      handleFailure s fm =
        { s with timers := clearTimer e.timer s.timers
                 pending := perase id s.pending
                 settled := s.settled ++ [(e.sink, .rejected (.requestFailed
                   (if fm.content = "" then "Request failed" else fm.content)))]
                 events := s.events ++ [.requestFailed fm e.message] }) ∧
    (∀ m : Message, ∀ conv : String, ∀ t rdl : Option Int, m.performative = "request" →
      (initiateRequest s m conv ⟨t, some 0, rdl⟩).map
          (fun pr => (plookup m.id pr.1.pending).map (fun e' => (e'.retries, e'.maxRetries)))
        = .ok (some (0, s.defaultMaxRetries))) := by
  have hmain : handleTimeout s id =
      { s with timers := clearTimer e.timer s.timers
               pending := perase id s.pending
               settled := s.settled ++ [(e.sink, .rejected .requestTimeout)]
               events := s.events ++ [.requestTimeout e.message] } := by
    simp only [handleTimeout, hlook]
    rw [if_neg hmax]
    simp only [clearPendingRequest, hlook]
  refine ⟨hmain, ?_, ?_, ?_, ?_⟩
  · intro hnd
    rw [hmain]
    exact plookup_perase_self id s.pending hnd
  · intro h d htimer hfind
    rw [hmain]
    simp only [fireTimer, hfind]
    simp only [handleTimeout, hlook]
    rw [if_neg hmax]
    simp only [clearPendingRequest, hlook, htimer, clearTimer]
    rw [filter_handle_idem]
  · intro fm _hperf hreply hne
    simp only [handleFailure, hreply]
    rw [if_neg hne]
    simp only [hlook]
    rw [if_neg hmax]
    simp only [clearPendingRequest, hlook]
  · intro m conv t rdl hm
    by_cases ht : 0 < orD t s.defaultTimeout
    · simp only [initiateRequest, hm]
      rw [if_neg (by simp), if_pos ht]
      simp [plookup_pset_self, Except.map, orD]
    · simp only [initiateRequest, hm]
      rw [if_neg (by simp), if_neg ht]
      simp [plookup_pset_self, Except.map, orD]

/-- C3 counterexample: with the default protocol configuration, a request
initiated with options maxRetries = 0 and timeout = 50 whose deadline then
expires is not rejected: nothing settles, the entry stays pending with
retry count 1 and effective maximum 3, and a fresh default-duration timer
is armed. -/
theorem maxRetries_zero_cex :
    ((protRun (RequestResponseProtocol.init ⟨none, none, none⟩)
        [.initiate (Message.mk "r1" "a" ["b"] "request" "" none none 0) "c"
          ⟨some 50, some 0, none⟩, .fire 0]).settled = []) ∧
    ((protRun (RequestResponseProtocol.init ⟨none, none, none⟩)
        [.initiate (Message.mk "r1" "a" ["b"] "request" "" none none 0) "c"
          ⟨some 50, some 0, none⟩, .fire 0]).pending.map
        (fun p => (p.1, p.2.retries, p.2.maxRetries)) = [("r1", 1, 3)]) ∧
    ((protRun (RequestResponseProtocol.init ⟨none, none, none⟩)
        [.initiate (Message.mk "r1" "a" ["b"] "request" "" none none 0) "c"
          ⟨some 50, some 0, none⟩, .fire 0]).timers = [Timer.mk 1 "r1" 30000]) :=
  ⟨rfl, rfl, rfl⟩

/-- C3 witness: the timer-driven rejection at a concrete entry with an
exhausted budget (retries = maxRetries = 3). -/
theorem exhausted_budget_rejects_witness :
    handleTimeout (ProtocolState.mk
        [("r1", PendingRequest.mk "r1" (Message.mk "r1" "a" ["b"] "request" "" none none 0)
          "c" (some 5) 0 3 3 1000)]
        [Timer.mk 5 "r1" 30000] 6 1 [] [] 30000 3 1000) "r1" =
      ProtocolState.mk [] [] 6 1
        [(0, .rejected .requestTimeout)]
        [.requestTimeout (Message.mk "r1" "a" ["b"] "request" "" none none 0)]
        30000 3 1000 :=
  (exhausted_budget_rejects (ProtocolState.mk
      [("r1", PendingRequest.mk "r1" (Message.mk "r1" "a" ["b"] "request" "" none none 0)
        "c" (some 5) 0 3 3 1000)]
      [Timer.mk 5 "r1" 30000] 6 1 [] [] 30000 3 1000) "r1"
    (PendingRequest.mk "r1" (Message.mk "r1" "a" ["b"] "request" "" none none 0)
      "c" (some 5) 0 3 3 1000) rfl (by decide)).1

/-! ### C4 -/

/-- C4 counterexample: a second initiateRequest with an already-pending id
overwrites the table entry without clearing the superseded entry's timer,
so the single pending entry for that id has two armed deadline timers. -/
theorem duplicate_initiate_two_timers_cex :
    (pkeys (protRun (RequestResponseProtocol.init ⟨none, none, none⟩)
        [.initiate (Message.mk "r1" "a" ["b"] "request" "" none none 0) "c" ⟨none, none, none⟩,
         .initiate (Message.mk "r1" "a" ["b"] "request" "" none none 0) "c"
           ⟨none, none, none⟩]).pending = ["r1"]) ∧
    ((timersFor (protRun (RequestResponseProtocol.init ⟨none, none, none⟩)
        [.initiate (Message.mk "r1" "a" ["b"] "request" "" none none 0) "c" ⟨none, none, none⟩,
         .initiate (Message.mk "r1" "a" ["b"] "request" "" none none 0) "c"
           ⟨none, none, none⟩]) "r1").length = 2) :=
  ⟨rfl, rfl⟩

/-! Preservation of key uniqueness (unconditional, for every step). -/

theorem oneEntry_clearPendingRequest (s : ProtocolState) (id : String)
    (h : oneEntryPerId s) : oneEntryPerId (clearPendingRequest s id) := by
  simp only [clearPendingRequest]
  split
  · exact h
  · exact keysNodup_perase id s.pending h

theorem oneEntry_retryRequest (s : ProtocolState) (e : PendingRequest)
    (h : oneEntryPerId s) : oneEntryPerId (retryRequest s e) := by
  simp only [retryRequest]
  split
  · exact keysNodup_pset e.id _ s.pending h
  · exact keysNodup_pset e.id _ s.pending h

theorem oneEntry_handleTimeout (s : ProtocolState) (id : String)
    (h : oneEntryPerId s) : oneEntryPerId (handleTimeout s id) := by
  simp only [handleTimeout]
  split
  · exact h
  · split
    · exact oneEntry_retryRequest s _ h
    · exact oneEntry_clearPendingRequest s id h

theorem oneEntry_fireTimer (s : ProtocolState) (hd : Nat)
    (h : oneEntryPerId s) : oneEntryPerId (fireTimer s hd) := by
  simp only [fireTimer]
  split
  · exact h
  · exact oneEntry_handleTimeout _ _ h

theorem oneEntry_handleResponse (s : ProtocolState) (m : Message)
    (h : oneEntryPerId s) : oneEntryPerId (handleResponse s m) := by
  simp only [handleResponse]
  split
  · exact h
  · split
    · exact h
    · split
      · exact h
      · exact oneEntry_clearPendingRequest s _ h

theorem oneEntry_handleFailure (s : ProtocolState) (m : Message)
    (h : oneEntryPerId s) : oneEntryPerId (handleFailure s m) := by
  simp only [handleFailure]
  split
  · exact h
  · split
    · exact h
    · split
      · exact h
      · split
        · exact oneEntry_retryRequest s _ h
        · exact oneEntry_clearPendingRequest s _ h

theorem oneEntry_handleMessage (s : ProtocolState) (m : Message)
    (h : oneEntryPerId s) : oneEntryPerId (handleMessage s m) := by
  simp only [handleMessage]
  split
  · exact oneEntry_handleResponse s m h
  · split
    · exact oneEntry_handleFailure s m h
    · exact h

theorem oneEntry_cancelRequest (s : ProtocolState) (id : String)
    (h : oneEntryPerId s) : oneEntryPerId (cancelRequest s id).1 := by
  simp only [cancelRequest]
  split
  · exact h
  · exact oneEntry_clearPendingRequest s id h
theorem oneEntry_foldl_cancel (ids : List String) (s : ProtocolState)
    (h : oneEntryPerId s) :
    oneEntryPerId (ids.foldl (fun s' id => (cancelRequest s' id).1) s) := by
  induction ids generalizing s with
  | nil => exact h
  | cons i rest ih => exact ih _ (oneEntry_cancelRequest s i h)

theorem oneEntry_initiate_step (s : ProtocolState) (m : Message) (conv : String)
    (opts : RequestResponseOptions) (h : oneEntryPerId s) :
    oneEntryPerId (protStep s (.initiate m conv opts)) := by
  simp only [protStep]
  cases hres : initiateRequest s m conv opts with
  | error e => exact h
  | ok pr =>
    obtain ⟨s', tok⟩ := pr
    simp only [initiateRequest] at hres
    split at hres
    · cases hres
    · split at hres
      · rw [Except.ok.injEq, Prod.mk.injEq] at hres
        obtain ⟨hs', -⟩ := hres
        subst hs'
        exact keysNodup_pset _ _ s.pending h
      · rw [Except.ok.injEq, Prod.mk.injEq] at hres
        obtain ⟨hs', -⟩ := hres
        subst hs'
        exact keysNodup_pset _ _ s.pending h

theorem oneEntry_step (s : ProtocolState) (op : ProtOp)
    (h : oneEntryPerId s) : oneEntryPerId (protStep s op) := by
  cases op with
  | initiate m conv opts => exact oneEntry_initiate_step s m conv opts h
  | deliver m => exact oneEntry_handleMessage s m h
  | fire hd => exact oneEntry_fireTimer s hd h
  | cancel id => exact oneEntry_cancelRequest s id h
  | cancelAll => exact oneEntry_foldl_cancel (s.pending.map Prod.fst) s h

theorem oneEntry_run (s : ProtocolState) (ops : List ProtOp)
    (h : oneEntryPerId s) : oneEntryPerId (protRun s ops) := by
  induction ops generalizing s with
  | nil => exact h
  | cons op rest ih => exact ih _ (oneEntry_step s op h)

/-! Preservation of the full one-timer invariant under the side conditions. -/

theorem filter_swap_target (ts : List Timer) (id : String) (h : Nat) :
    (ts.filter (fun t => t.handle ≠ h)).filter (fun t => t.target = id)
      = (ts.filter (fun t => t.target = id)).filter (fun t => t.handle ≠ h) := by
  rw [List.filter_filter, List.filter_filter]
  apply List.filter_congr
  intro t _
  exact Bool.and_comm _ _

theorem mem_of_filter_target_singleton (ts : List Timer) (p1 : String) (T1 : Timer)
    (hsing : ts.filter (fun t => t.target = p1) = [T1]) :
    T1 ∈ ts ∧ T1.target = p1 := by
  have hmem : T1 ∈ ts.filter (fun t => t.target = p1) := by
    rw [hsing]
    exact List.mem_singleton_self _
  exact ⟨List.mem_of_mem_filter hmem, by simpa using List.of_mem_filter hmem⟩

theorem filter_target_of_clear (ts : List Timer) (p1 : String) (T1 : Timer) (h : Nat)
    (hsing : ts.filter (fun t => t.target = p1) = [T1]) (hne : T1.handle ≠ h) :
    (ts.filter (fun t => t.handle ≠ h)).filter (fun t => t.target = p1) = [T1] := by
  rw [filter_swap_target, hsing]
  simp [hne]

theorem filter_target_clear_self (ts : List Timer) (p1 : String) (T1 : Timer)
    (hsing : ts.filter (fun t => t.target = p1) = [T1]) :
    (ts.filter (fun t => t.handle ≠ T1.handle)).filter (fun t => t.target = p1) = [] := by
  rw [filter_swap_target, hsing]
  simp

theorem handles_lt_notmem (ts : List Timer) (n : Nat)
    (hf : ∀ t ∈ ts, t.handle < n) : n ∉ ts.map Timer.handle := by
  intro hmem
  obtain ⟨t, ht, hth⟩ := List.mem_map.mp hmem
  have := hf t ht
  omega

theorem nodup_handles_append (ts : List Timer) (t1 : Timer)
    (hn : (ts.map Timer.handle).Nodup) (hf : ∀ t ∈ ts, t.handle < t1.handle) :
    ((ts ++ [t1]).map Timer.handle).Nodup := by
  rw [List.map_append]
  refine hn.append (List.nodup_singleton _) ?_
  intro a ha hb
  rw [List.map_singleton, List.mem_singleton] at hb
  subst hb
  exact handles_lt_notmem ts t1.handle hf ha

theorem mem_pkeys_of_plookup (k : String) (l : List (String × PendingRequest))
    (e : PendingRequest) (h : plookup k l = some e) : k ∈ pkeys l :=
  List.mem_map_of_mem Prod.fst (mem_of_plookup k l e h)

theorem inv_clearPendingRequest (s : ProtocolState) (id : String)
    (hInv : protInv s) : protInv (clearPendingRequest s id) := by
  obtain ⟨hkc, hnd, htm, htp, hhn, hhl, hdt⟩ := hInv
  simp only [clearPendingRequest]
  split
  · exact ⟨hkc, hnd, htm, htp, hhn, hhl, hdt⟩
  · rename_i e hlook
    have hmem := mem_of_plookup id s.pending e hlook
    obtain ⟨hE, dE, htimer0, hsing0⟩ := htm (id, e) hmem
    have htimer : e.timer = some hE := htimer0
    have hsing : s.timers.filter (fun t => t.target = id) = [Timer.mk hE id dE] := hsing0
    rw [htimer]
    have hTEmem := mem_of_filter_target_singleton s.timers id _ hsing
    refine ⟨?_, ?_, ?_, ?_, ?_, ?_, hdt⟩
    · intro p hp
      exact hkc p (mem_perase id s.pending p hp)
    · exact keysNodup_perase id s.pending hnd
    · intro p hp
      obtain ⟨hpmem, hpne⟩ := mem_perase_ne id s.pending p hnd hp
      obtain ⟨hp', dp, hpt, hpsing0⟩ := htm p hpmem
      have hpsing : s.timers.filter (fun t => t.target = p.1) = [Timer.mk hp' p.1 dp] := hpsing0
      refine ⟨hp', dp, hpt, ?_⟩
      show (s.timers.filter (fun t => t.handle ≠ hE)).filter (fun t => t.target = p.1)
        = [Timer.mk hp' p.1 dp]
      apply filter_target_of_clear s.timers p.1 _ hE hpsing
      intro heq
      have hTp := mem_of_filter_target_singleton s.timers p.1 _ hpsing
      have heqT := List.inj_on_of_nodup_map hhn hTp.1 hTEmem.1 (by simpa using heq)
      have : p.1 = id := by simpa using congrArg Timer.target heqT
      exact hpne this
    · intro t ht
      have htts := List.mem_of_mem_filter ht
      have hhne : t.handle ≠ hE := by simpa using List.of_mem_filter ht
      have htarget := htp t htts
      show t.target ∈ pkeys (perase id s.pending)
      rw [pkeys_perase]
      refine (List.mem_erase_of_ne ?_).mpr htarget
      intro heq
      have hmemf : t ∈ s.timers.filter (fun t' => t'.target = id) :=
        List.mem_filter.mpr ⟨htts, by simp [heq]⟩
      rw [show s.timers.filter (fun t' => t'.target = id) = [Timer.mk hE id dE] from hsing]
        at hmemf
      rw [List.mem_singleton] at hmemf
      apply hhne
      rw [hmemf]
    · exact hhn.sublist ((List.filter_sublist s.timers).map Timer.handle)
    · intro t ht
      exact hhl t (List.mem_of_mem_filter ht)

theorem inv_retryRequest (s : ProtocolState) (id : String) (e : PendingRequest)
    (hInv : protInv s) (hlook : plookup id s.pending = some e) :
    protInv (retryRequest s e) := by
  obtain ⟨hkc, hnd, htm, htp, hhn, hhl, hdt⟩ := hInv
  have hmem := mem_of_plookup id s.pending e hlook
  have heid : e.id = id := hkc (id, e) hmem
  obtain ⟨hE, dE, htimer0, hsing0⟩ := htm (id, e) hmem
  have htimer : e.timer = some hE := htimer0
  have hsing : s.timers.filter (fun t => t.target = id) = [Timer.mk hE id dE] := hsing0
  have hTEmem := mem_of_filter_target_singleton s.timers id _ hsing
  have hsome : (plookup id s.pending).isSome := by simp [hlook]
  simp only [retryRequest, heid, htimer]
  rw [if_pos hdt]
  refine ⟨?_, ?_, ?_, ?_, ?_, ?_, hdt⟩
  · intro p hp
    rcases mem_pset id _ s.pending p hnd hp with hp | ⟨hp1, hp2⟩
    · rw [hp]
    · exact hkc p hp1
  · exact keysNodup_pset id _ s.pending hnd
  · intro p hp
    rcases mem_pset id _ s.pending p hnd hp with hp | ⟨hp1, hp2⟩
    · subst hp
      refine ⟨s.nextHandle, s.defaultTimeout, rfl, ?_⟩
      show (s.timers.filter (fun t => t.handle ≠ hE) ++
          [Timer.mk s.nextHandle id s.defaultTimeout]).filter (fun t => t.target = id)
        = [Timer.mk s.nextHandle id s.defaultTimeout]
      rw [List.filter_append, filter_target_clear_self s.timers id _ hsing]
      simp
    · obtain ⟨hp', dp, hpt, hpsing0⟩ := htm p hp1
      have hpsing : s.timers.filter (fun t => t.target = p.1) = [Timer.mk hp' p.1 dp] := hpsing0
      refine ⟨hp', dp, hpt, ?_⟩
      show (s.timers.filter (fun t => t.handle ≠ hE) ++
          [Timer.mk s.nextHandle id s.defaultTimeout]).filter (fun t => t.target = p.1)
        = [Timer.mk hp' p.1 dp]
      rw [List.filter_append]
      have hdrop : ([Timer.mk s.nextHandle id s.defaultTimeout].filter
          (fun t => t.target = p.1)) = [] := by
        simp [Ne.symm hp2]
      rw [hdrop, List.append_nil]
      apply filter_target_of_clear s.timers p.1 _ hE hpsing
      intro heq
      have hTp := mem_of_filter_target_singleton s.timers p.1 _ hpsing
      have heqT := List.inj_on_of_nodup_map hhn hTp.1 hTEmem.1 (by simpa using heq)
      have : p.1 = id := by simpa using congrArg Timer.target heqT
      exact hp2 this
  · intro t ht
    rcases List.mem_append.mp ht with ht | ht
    · have htts := List.mem_of_mem_filter ht
      have htarget := htp t htts
      show t.target ∈ pkeys (pset id _ s.pending)
      rw [pkeys_pset_existing id _ s.pending hsome]
      exact htarget
    · rw [List.mem_singleton] at ht
      subst ht
      show id ∈ pkeys (pset id _ s.pending)
      rw [pkeys_pset_existing id _ s.pending hsome]
      exact mem_pkeys_of_plookup id s.pending e hlook
  · show (((s.timers.filter (fun t => t.handle ≠ hE)) ++
        [Timer.mk s.nextHandle id s.defaultTimeout]).map Timer.handle).Nodup
    apply nodup_handles_append
    · exact hhn.sublist ((List.filter_sublist s.timers).map Timer.handle)
    · intro t ht
      exact hhl t (List.mem_of_mem_filter ht)
  · intro t ht
    rcases List.mem_append.mp ht with ht | ht
    · have := hhl t (List.mem_of_mem_filter ht)
      show t.handle < s.nextHandle + 1
      omega
    · rw [List.mem_singleton] at ht
      subst ht
      show s.nextHandle < s.nextHandle + 1
      omega

theorem inv_initiate (s : ProtocolState) (m : Message) (conv : String)
    (opts : RequestResponseOptions) (s' : ProtocolState) (tok : Nat)
    (hInv : protInv s)
    (hfresh : plookup m.id s.pending = none)
    (hpos : 0 < orD opts.timeout s.defaultTimeout)
    (hres : initiateRequest s m conv opts = .ok (s', tok)) : protInv s' := by
  obtain ⟨hkc, hnd, htm, htp, hhn, hhl, hdt⟩ := hInv
  have hnk : m.id ∉ pkeys s.pending := (plookup_eq_none_iff _ _).mp hfresh
  have hkeys : ∀ v : PendingRequest,
      pkeys (pset m.id v s.pending) = pkeys s.pending ++ [m.id] := by
    intro v
    rw [pset_eq_append _ _ _ hfresh]
    simp [pkeys]
  simp only [initiateRequest] at hres
  split at hres
  · cases hres
  · rw [Except.ok.injEq, Prod.mk.injEq] at hres
    obtain ⟨hs', -⟩ := hres
    subst hs'
    refine ⟨?_, ?_, ?_, ?_, ?_, ?_, hdt⟩
    · intro p hp
      rcases mem_pset m.id _ s.pending p hnd hp with hp | ⟨hp1, hp2⟩
      · rw [hp]
      · exact hkc p hp1
    · exact keysNodup_pset m.id _ s.pending hnd
    · intro p hp
      rcases mem_pset m.id _ s.pending p hnd hp with hp | ⟨hp1, hp2⟩
      · subst hp
        refine ⟨s.nextHandle, orD opts.timeout s.defaultTimeout, rfl, ?_⟩
        show (s.timers ++ [Timer.mk s.nextHandle m.id (orD opts.timeout s.defaultTimeout)]).filter
            (fun t => t.target = m.id)
          = [Timer.mk s.nextHandle m.id (orD opts.timeout s.defaultTimeout)]
        rw [List.filter_append]
        have h0 : s.timers.filter (fun t => t.target = m.id) = [] := by
          apply List.filter_eq_nil_iff.mpr
          intro t ht
          simp only [decide_eq_true_eq]
          intro heq
          apply hnk
          rw [← heq]
          exact htp t ht
        rw [h0]
        simp
      · obtain ⟨hp', dp, hpt, hpsing0⟩ := htm p hp1
        have hpsing : s.timers.filter (fun t => t.target = p.1) = [Timer.mk hp' p.1 dp] :=
          hpsing0
        refine ⟨hp', dp, hpt, ?_⟩
        show (s.timers ++ [Timer.mk s.nextHandle m.id (orD opts.timeout s.defaultTimeout)]).filter
            (fun t => t.target = p.1)
          = [Timer.mk hp' p.1 dp]
        rw [List.filter_append, hpsing]
        have hdrop : ([Timer.mk s.nextHandle m.id (orD opts.timeout s.defaultTimeout)].filter
            (fun t => t.target = p.1)) = [] := by
          simp [Ne.symm hp2]
        rw [hdrop, List.append_nil]
    · intro t ht
      rcases List.mem_append.mp ht with ht | ht
      · have := htp t ht
        show t.target ∈ pkeys (pset m.id _ s.pending)
        rw [hkeys]
        exact List.mem_append_left _ this
      · rw [List.mem_singleton] at ht
        subst ht
        show m.id ∈ pkeys (pset m.id _ s.pending)
        rw [hkeys]
        exact List.mem_append_right _ (List.mem_singleton_self _)
    · exact nodup_handles_append s.timers _ hhn hhl
    · intro t ht
      rcases List.mem_append.mp ht with ht | ht
      · have := hhl t ht
        show t.handle < s.nextHandle + 1
        omega
      · rw [List.mem_singleton] at ht
        subst ht
        show s.nextHandle < s.nextHandle + 1
        omega

/-- Under the invariant, a timer expiry is exactly the timeout callback on
the fired timer's target: the event loop removing the fired timer and the
callback clearing the entry's stored handle remove the same timer. -/
theorem fireTimer_eq (s : ProtocolState) (hd : Nat) (t0 : Timer)
    (hInv : protInv s)
    (hfind : s.timers.find? (fun t => t.handle = hd) = some t0) :
    fireTimer s hd = handleTimeout s t0.target := by
  obtain ⟨hkc, hnd, htm, htp, hhn, hhl, hdt⟩ := hInv
  have hm0 : t0 ∈ s.timers := List.mem_of_find?_eq_some hfind
  have hh0 : t0.handle = hd := by simpa using List.find?_some hfind
  have htgt : t0.target ∈ pkeys s.pending := htp t0 hm0
  obtain ⟨e, hlook⟩ : ∃ e, plookup t0.target s.pending = some e := by
    cases hl : plookup t0.target s.pending with
    | none => exact absurd htgt ((plookup_eq_none_iff _ _).mp hl)
    | some e => exact ⟨e, rfl⟩
  have hmem := mem_of_plookup _ _ _ hlook
  obtain ⟨hE, dE, htimer0, hsing0⟩ := htm (t0.target, e) hmem
  have htimer : e.timer = some hE := htimer0
  have hsing : s.timers.filter (fun t => t.target = t0.target)
      = [Timer.mk hE t0.target dE] := hsing0
  have ht0sing : t0 ∈ s.timers.filter (fun t => t.target = t0.target) :=
    List.mem_filter.mpr ⟨hm0, by simp⟩
  rw [hsing, List.mem_singleton] at ht0sing
  have hEhd : hE = hd := by
    have hh := congrArg Timer.handle ht0sing
    simp only at hh
    omega
  subst hEhd
  rw [← hh0] at htimer hfind ⊢
  simp only [fireTimer, hfind]
  simp only [handleTimeout, hlook]
  by_cases hr : e.retries < e.maxRetries
  · rw [if_pos hr, if_pos hr]
    simp only [retryRequest, htimer, clearTimer]
    rw [if_pos hdt, if_pos hdt, filter_handle_idem]
  · rw [if_neg hr, if_neg hr]
    simp only [clearPendingRequest, hlook, htimer, clearTimer]
    rw [filter_handle_idem]

theorem inv_handleTimeout (s : ProtocolState) (id : String)
    (hInv : protInv s) : protInv (handleTimeout s id) := by
  simp only [handleTimeout]
  split
  · exact hInv
  · rename_i e hlook
    split
    · exact inv_retryRequest s id e hInv hlook
    · exact inv_clearPendingRequest s id hInv

theorem inv_handleResponse (s : ProtocolState) (m : Message)
    (hInv : protInv s) : protInv (handleResponse s m) := by
  simp only [handleResponse]
  split
  · exact hInv
  · split
    · exact hInv
    · split
      · exact hInv
      · exact inv_clearPendingRequest s _ hInv

theorem inv_handleFailure (s : ProtocolState) (m : Message)
    (hInv : protInv s) : protInv (handleFailure s m) := by
  simp only [handleFailure]
  split
  · exact hInv
  · rename_i rid hir
    split
    · exact hInv
    · split
      · exact hInv
      · rename_i e hlook
        split
        · exact inv_retryRequest s rid e hInv hlook
        · exact inv_clearPendingRequest s rid hInv

theorem inv_handleMessage (s : ProtocolState) (m : Message)
    (hInv : protInv s) : protInv (handleMessage s m) := by
  simp only [handleMessage]
  split
  · exact inv_handleResponse s m hInv
  · split
    · exact inv_handleFailure s m hInv
    · exact hInv

theorem inv_cancelRequest (s : ProtocolState) (id : String)
    (hInv : protInv s) : protInv (cancelRequest s id).1 := by
  simp only [cancelRequest]
  split
  · exact hInv
  · exact inv_clearPendingRequest s id hInv

theorem inv_foldl_cancel (ids : List String) (s : ProtocolState)
    (hInv : protInv s) :
    protInv (ids.foldl (fun s' id => (cancelRequest s' id).1) s) := by
  induction ids generalizing s with
  | nil => exact hInv
  | cons i rest ih => exact ih _ (inv_cancelRequest s i hInv)

theorem inv_step (s : ProtocolState) (op : ProtOp)
    (hInv : protInv s) (hok : okOpB s op = true) : protInv (protStep s op) := by
  cases op with
  | initiate m conv opts =>
    simp only [okOpB, Bool.and_eq_true, Option.isNone_iff_eq_none,
      decide_eq_true_eq] at hok
    obtain ⟨hfresh, hpos⟩ := hok
    simp only [protStep]
    split
    · rename_i s' tok hres
      exact inv_initiate s m conv opts s' tok
        ⟨hInv.1, hInv.2.1, hInv.2.2.1, hInv.2.2.2.1, hInv.2.2.2.2.1,
          hInv.2.2.2.2.2.1, hInv.2.2.2.2.2.2⟩ hfresh hpos hres
    · exact hInv
  | deliver m => exact inv_handleMessage s m hInv
  | fire hd =>
    have h1 : protInv (fireTimer s hd) := by
      cases hf : s.timers.find? (fun t => t.handle = hd) with
      | none =>
        have heq : fireTimer s hd = s := by
          simp [fireTimer, hf]
        rw [heq]
        exact hInv
      | some t0 =>
        rw [fireTimer_eq s hd t0 hInv hf]
        exact inv_handleTimeout s t0.target hInv
    exact h1
  | cancel id => exact inv_cancelRequest s id hInv
  | cancelAll => exact inv_foldl_cancel _ s hInv

theorem inv_run (s : ProtocolState) (ops : List ProtOp)
    (hInv : protInv s) (hgood : goodOpsB s ops = true) : protInv (protRun s ops) := by
  induction ops generalizing s with
  | nil => exact hInv
  | cons op rest ih =>
    simp only [goodOpsB, Bool.and_eq_true] at hgood
    exact ih _ (inv_step s op hInv hgood.1) hgood.2

theorem inv_init (d : RequestResponseOptions) (hd : 0 < orD d.timeout 30000) :
    protInv (RequestResponseProtocol.init d) :=
  ⟨fun p hp => absurd hp (List.not_mem_nil p), List.nodup_nil,
    fun p hp => absurd hp (List.not_mem_nil p),
    fun t ht => absurd ht (List.not_mem_nil t),
    List.nodup_nil, fun t ht => absurd ht (List.not_mem_nil t), hd⟩

/-- C4 (amended): the pending table never holds two entries for one id —
for every operation sequence, duplicate-id initiation included. The second
half of the claim holds only under a side condition: provided every
initiateRequest call uses an id that is not currently pending and a
positive effective timeout (with a positive instance default), every
pending entry has exactly one active deadline timer at every instant. A
duplicate-id initiateRequest leaves the superseded entry's timer armed, so
the entry then has two timers (see the counterexample). -/
theorem pending_table_invariant (d : RequestResponseOptions) (ops : List ProtOp)
    (hd : 0 < orD d.timeout 30000)
    (hgood : goodOpsB (RequestResponseProtocol.init d) ops = true) :
    (∀ ops2 : List ProtOp,
      oneEntryPerId (protRun (RequestResponseProtocol.init d) ops2)) ∧
    oneTimerPerEntry (protRun (RequestResponseProtocol.init d) ops) := by
  constructor
  · intro ops2
    exact oneEntry_run _ ops2 List.nodup_nil
  · have hInv := inv_run _ ops (inv_init d hd) hgood
    obtain ⟨-, -, htm, -⟩ := hInv
    intro p hp
    obtain ⟨h, dd, -, hsing⟩ := htm p hp
    rw [hsing]
    rfl

/-- C4 witness: a fresh-id initiation, a deadline expiry (which retries)
and a resolving reply, all satisfying the side conditions. -/
theorem pending_table_invariant_witness :
    (∀ ops2 : List ProtOp,
      oneEntryPerId (protRun (RequestResponseProtocol.init ⟨none, none, none⟩) ops2)) ∧
    oneTimerPerEntry (protRun (RequestResponseProtocol.init ⟨none, none, none⟩)
      [.initiate (Message.mk "r1" "a" ["b"] "request" "" none none 0) "c" ⟨none, none, none⟩,
       .fire 0,
       .deliver (Message.mk "m2" "b" ["a"] "inform" "" none (some "r1") 5)]) :=
  pending_table_invariant ⟨none, none, none⟩
    [.initiate (Message.mk "r1" "a" ["b"] "request" "" none none 0) "c" ⟨none, none, none⟩,
     .fire 0,
     .deliver (Message.mk "m2" "b" ["a"] "inform" "" none (some "r1") 5)]
    (by decide) (by decide)

end ACP
